import Mathlib

/-!
Verification of the jsondict persistent dictionary (src/jsondict.py).

The development has three layers:

1. A serializer model (`JVal`, `renderVal`, `encode`, `parseValue`, `decode`).
   The serializer itself is the external `asjson` dependency, which is not
   under src/; these definitions are modelled from the spec (sorted keys,
   2-space indentation, ISO-8601 date/time with a literal Z suffix, plain
   JSON decode with no date auto-detection).  JSON numbers are modelled as
   integers: floating-point rendering is not shallow-embeddable.
2. A filesystem model with injected failure points, embedding `safely_write`
   and `makedirs` from src/jsondict.py.
3. A store model embedding the `JsonDict` class: `__setitem__`,
   `__delitem__`, `clear`, `update`, `load`, `save`, `__init__`.

Strings and file contents are `List Char`; the gzip layer is abstracted as a
transparent byte transform (the filesystem stores the logical payload), which
is faithful for every claim considered here since none inspects raw
compressed bytes.
-/

/-- Character lists stand for the Python strings and file payloads. -/
abbrev Chars := List Char

/-- Decimal digit character for a digit value below ten. -/
def digitChar (d : Nat) : Char := Char.ofNat (48 + d)

/-- Lowercase hexadecimal digit character, as CPython's json module emits. -/
def hexDigitChar (d : Nat) : Char :=
  if d < 10 then Char.ofNat (48 + d) else Char.ofNat (87 + d)

/-- Decimal rendering loop: peels the least significant digit first, so the
accumulator ends up most-significant-first.  Fuel-indexed to stay structural;
`natToChars` supplies fuel `n`, which is always enough. -/
def natToCharsAux : Nat → Nat → Chars → Chars
  | 0, _, acc => acc
  | fuel + 1, n, acc =>
    if n = 0 then acc else natToCharsAux fuel (n / 10) (digitChar (n % 10) :: acc)

/-- Decimal rendering of a natural number, as Python's repr of a non-negative
int. -/
def natToChars (n : Nat) : Chars :=
  if n = 0 then ['0'] else natToCharsAux n n []

/-- Decimal rendering of an integer, with a leading minus sign when negative. -/
def intToChars (n : Int) : Chars :=
  if n < 0 then '-' :: natToChars n.natAbs else natToChars n.natAbs

/-- Left-pads a decimal rendering with zeros to the given width, as strftime
field formatting does in date/time renderings. -/
def padZeros (w : Nat) (n : Nat) : Chars :=
  List.replicate (w - (natToChars n).length) '0' ++ natToChars n

/-- Modelled from the spec: ISO-8601 date rendering `YYYY-MM-DD` used by the
missing `asjson` serializer for date values. -/
def dateChars (y m d : Nat) : Chars :=
  padZeros 4 y ++ '-' :: (padZeros 2 m ++ '-' :: padZeros 2 d)

/-- Modelled from the spec: ISO-8601 date-time rendering
`YYYY-MM-DDTHH:MM:SSZ` (seconds precision, literal Z suffix, no timezone
conversion) used by the missing `asjson` serializer for datetime values. -/
def datetimeChars (y mo d h mi s : Nat) : Chars :=
  dateChars y mo d ++ 'T' :: (padZeros 2 h ++ ':' :: (padZeros 2 mi ++ ':' :: (padZeros 2 s ++ ['Z'])))

/-- Modelled from the spec: the value kinds the store supports (§3 of the
spec), for the missing `asjson` serializer.  Numbers are modelled as
integers; date and datetime carry the wall-clock fields that the renderer
emits verbatim. -/
inductive JVal where
  | null : JVal
  | bool (b : Bool) : JVal
  | int (n : Int) : JVal
  | str (s : Chars) : JVal
  | date (y m d : Nat) : JVal
  | datetime (y mo d h mi s : Nat) : JVal
  | arr (xs : List JVal) : JVal
  | obj (kvs : List (Chars × JVal)) : JVal

instance : Inhabited JVal := ⟨JVal.null⟩

/-- JSON string escaping: quote and backslash are escaped, control characters
become lowercase `\u00xx`, everything else (including non-ASCII) is emitted
verbatim, matching the spec's "not escaped to `\uXXXX`" requirement. -/
def escapeChar (c : Char) : Chars :=
  if c = '"' then ['\\', '"']
  else if c = '\\' then ['\\', '\\']
  else if c.toNat < 32 then
    ['\\', 'u', '0', '0', hexDigitChar (c.toNat / 16), hexDigitChar (c.toNat % 16)]
  else [c]

/-- Escapes every character of a string body. -/
def escapeStr : Chars → Chars
  | [] => []
  | c :: tl => escapeChar c ++ escapeStr tl

/-- Quoted JSON string rendering. -/
def renderString (s : Chars) : Chars :=
  '"' :: (escapeStr s ++ ['"'])

/-- Two spaces of indentation per nesting level, the spec's canonical layout. -/
def indentChars (n : Nat) : Chars := List.replicate (2 * n) ' '

/-- Key comparison used by `sorted()` on Python strings: lexicographic by code
point, which is exactly Mathlib's lexicographic order on `List Char`. -/
def pairLe (p q : Chars × JVal) : Prop := p.1 ≤ q.1

instance : DecidableRel pairLe := fun p q => inferInstanceAs (Decidable (p.1 ≤ q.1))

instance : IsTotal (Chars × JVal) pairLe := ⟨fun p q => le_total p.1 q.1⟩

instance : IsTrans (Chars × JVal) pairLe := ⟨fun _ _ _ h1 h2 => le_trans h1 h2⟩

/-- Strict version of `pairLe`, for stating that output keys are strictly
ascending. -/
def pairLt (p q : Chars × JVal) : Prop := p.1 < q.1

instance : DecidableRel pairLt := fun p q => inferInstanceAs (Decidable (p.1 < q.1))

instance : IsAntisymm (Chars × JVal) pairLt :=
  ⟨fun _ _ h1 h2 => absurd h2 (lt_asymm h1)⟩

/-- Modelled from the spec: `sort_keys` behaviour of the missing `asjson`
serializer — members are emitted in ascending key order. -/
def sortPairs (l : List (Chars × JVal)) : List (Chars × JVal) :=
  List.insertionSort pairLe l

mutual

/-- Modelled from the spec: the canonical text rendering of the missing
`asjson` serializer — sorted keys are supplied by `canonVal`, indentation is
2 spaces, separators are `", "`-free (comma, newline), date/time values are
rendered as quoted ISO-8601 strings. -/
def renderVal (ind : Nat) : JVal → Chars
  | .null => "null".toList
  | .bool true => "true".toList
  | .bool false => "false".toList
  | .int n => intToChars n
  | .str s => renderString s
  | .date y m d => renderString (dateChars y m d)
  | .datetime y mo d h mi s => renderString (datetimeChars y mo d h mi s)
  | .arr [] => ['[', ']']
  | .arr (v :: tl) =>
    '[' :: '\n' :: (renderItems (ind + 1) (v :: tl) ++ '\n' :: (indentChars ind ++ [']']))
  | .obj [] => ['{', '}']
  | .obj (m :: tl) =>
    '{' :: '\n' :: (renderMembers (ind + 1) (m :: tl) ++ '\n' :: (indentChars ind ++ ['}']))

/-- Renders array items at the given indent, separated by comma-newline. -/
def renderItems (ind : Nat) : List JVal → Chars
  | [] => []
  | v :: tl =>
    indentChars ind ++ (renderVal ind v ++
      ((if tl.isEmpty then [] else [',', '\n']) ++ renderItems ind tl))

/-- Renders object members at the given indent, `"key": value`, separated by
comma-newline. -/
def renderMembers (ind : Nat) : List (Chars × JVal) → Chars
  | [] => []
  | (k, v) :: tl =>
    indentChars ind ++ (renderString k ++ ':' :: ' ' :: (renderVal ind v ++
      ((if tl.isEmpty then [] else [',', '\n']) ++ renderMembers ind tl)))

end

mutual

/-- Sorts every object of a value by key, recursively: the value actually
rendered by `encode`, since `sort_keys` applies at every nesting level. -/
def canonVal : JVal → JVal
  | .arr xs => .arr (canonList xs)
  | .obj kvs => .obj (sortPairs (canonPairs kvs))
  | v => v

/-- Maps `canonVal` over array items. -/
def canonList : List JVal → List JVal
  | [] => []
  | v :: tl => canonVal v :: canonList tl

/-- Maps `canonVal` over member values, keeping key order. -/
def canonPairs : List (Chars × JVal) → List (Chars × JVal)
  | [] => []
  | (k, v) :: tl => (k, canonVal v) :: canonPairs tl

end

mutual

/-- Replaces every date/time value by its plain ISO-8601 string rendering:
what a decode after an encode gives back, since decode does not re-detect
dates. -/
def stripDates : JVal → JVal
  | .date y m d => .str (dateChars y m d)
  | .datetime y mo d h mi s => .str (datetimeChars y mo d h mi s)
  | .arr xs => .arr (stripList xs)
  | .obj kvs => .obj (stripPairs kvs)
  | v => v

/-- Maps `stripDates` over array items. -/
def stripList : List JVal → List JVal
  | [] => []
  | v :: tl => stripDates v :: stripList tl

/-- Maps `stripDates` over member values. -/
def stripPairs : List (Chars × JVal) → List (Chars × JVal)
  | [] => []
  | (k, v) :: tl => (k, stripDates v) :: stripPairs tl

end

/-- Modelled from the spec: `encode(mapping) -> bytes` of the missing
`asjson` serializer (`JsonDict.to_json` calls `json.dumps(dict(self),
debug=True)`): the canonical serialized document of the mapping, with every
object sorted by key. -/
def encode (m : List (Chars × JVal)) : Chars :=
  renderVal 0 (canonVal (.obj m))

/-- Whitespace characters the JSON parser skips between tokens. -/
def isWsChar (c : Char) : Bool := c = ' ' || c = '\n' || c = '\t' || c = '\r'

/-- Drops leading whitespace. -/
def skipWs : Chars → Chars
  | [] => []
  | c :: tl => if isWsChar c then skipWs tl else c :: tl

/-- Decimal digit test on a character. -/
def isDigitChar (c : Char) : Bool := 48 ≤ c.toNat && c.toNat ≤ 57

/-- Consumes a maximal run of decimal digits, folding them onto the
accumulator most-significant-first. -/
def parseNatAux : Nat → Chars → Nat × Chars
  | acc, [] => (acc, [])
  | acc, c :: tl =>
    if isDigitChar c then parseNatAux (10 * acc + (c.toNat - 48)) tl else (acc, c :: tl)

/-- Parses a natural number literal; fails unless the input starts with a
digit. -/
def parseNatStrict : Chars → Option (Nat × Chars)
  | [] => none
  | c :: tl => if isDigitChar c then some (parseNatAux 0 (c :: tl)) else none

/-- Hexadecimal digit value of a character, if it is one. -/
def hexVal (c : Char) : Option Nat :=
  if 48 ≤ c.toNat && c.toNat ≤ 57 then some (c.toNat - 48)
  else if 97 ≤ c.toNat && c.toNat ≤ 102 then some (c.toNat - 87)
  else if 65 ≤ c.toNat && c.toNat ≤ 70 then some (c.toNat - 55)
  else none

/-- Resolves a single-character JSON escape. -/
def unescapeChar (e : Char) : Option Char :=
  if e = '"' then some '"'
  else if e = '\\' then some '\\'
  else if e = '/' then some '/'
  else if e = 'n' then some '\n'
  else if e = 't' then some '\t'
  else if e = 'r' then some '\r'
  else if e = 'b' then some (Char.ofNat 8)
  else if e = 'f' then some (Char.ofNat 12)
  else none

/-- Parses a JSON string body (the opening quote already consumed), returning
the unescaped characters and the rest of the input past the closing quote. -/
def parseStr : Chars → Option (Chars × Chars)
  | [] => none
  | c :: tl =>
    if c = '"' then some ([], tl)
    else if c = '\\' then
      match tl with
      | [] => none
      | e :: tl2 =>
        if e = 'u' then
          match tl2 with
          | a :: b :: c3 :: d :: tl3 =>
            match hexVal a, hexVal b, hexVal c3, hexVal d with
            | some x1, some x2, some x3, some x4 =>
              match parseStr tl3 with
              | none => none
              | some r => some (Char.ofNat (((x1 * 16 + x2) * 16 + x3) * 16 + x4) :: r.1, r.2)
            | _, _, _, _ => none
          | _ => none
        else
          match unescapeChar e with
          | none => none
          | some ch =>
            match parseStr tl2 with
            | none => none
            | some r => some (ch :: r.1, r.2)
    else
      match parseStr tl with
      | none => none
      | some r => some (c :: r.1, r.2)

mutual

/-- Modelled from the spec: plain JSON value parsing for the missing `asjson`
serializer's `decode` (`json.loads`).  Fuel-indexed: every mutual call spends
one unit, and `decode` supplies more fuel than any document can consume.
Date-like strings are deliberately NOT re-interpreted: a string parses as a
string. -/
def parseValue : Nat → Chars → Option (JVal × Chars)
  | 0, _ => none
  | fuel + 1, s =>
    match skipWs s with
    | [] => none
    | c :: r =>
      if c = '{' then
        match skipWs r with
        | [] => none
        | c2 :: r2 =>
          if c2 = '}' then some (.obj [], r2)
          else
            match parseMember fuel (c2 :: r2) with
            | none => none
            | some (kv, r3) =>
              match parseObjTail fuel r3 with
              | none => none
              | some (tl, r4) => some (.obj (kv :: tl), r4)
      else if c = '[' then
        match skipWs r with
        | [] => none
        | c2 :: r2 =>
          if c2 = ']' then some (.arr [], r2)
          else
            match parseValue fuel (c2 :: r2) with
            | none => none
            | some (v, r3) =>
              match parseArrTail fuel r3 with
              | none => none
              | some (tl, r4) => some (.arr (v :: tl), r4)
      else if c = '"' then
        match parseStr r with
        | none => none
        | some (s2, r2) => some (.str s2, r2)
      else if c = 'n' then
        match r with
        | 'u' :: 'l' :: 'l' :: r2 => some (.null, r2)
        | _ => none
      else if c = 't' then
        match r with
        | 'r' :: 'u' :: 'e' :: r2 => some (.bool true, r2)
        | _ => none
      else if c = 'f' then
        match r with
        | 'a' :: 'l' :: 's' :: 'e' :: r2 => some (.bool false, r2)
        | _ => none
      else if c = '-' then
        match parseNatStrict r with
        | none => none
        | some (n, r2) => some (.int (-(n : Int)), r2)
      else if isDigitChar c then
        match parseNatStrict (c :: r) with
        | none => none
        | some (n, r2) => some (.int (n : Int), r2)
      else none

/-- Parses the remainder of an object after one member: a comma followed by
another member, or the closing brace. -/
def parseObjTail : Nat → Chars → Option (List (Chars × JVal) × Chars)
  | 0, _ => none
  | fuel + 1, s =>
    match skipWs s with
    | [] => none
    | c :: r =>
      if c = ',' then
        match parseMember fuel r with
        | none => none
        | some (kv, r2) =>
          match parseObjTail fuel r2 with
          | none => none
          | some (tl, r3) => some (kv :: tl, r3)
      else if c = '}' then some ([], r)
      else none

/-- Parses the remainder of an array after one item: a comma followed by
another item, or the closing bracket. -/
def parseArrTail : Nat → Chars → Option (List JVal × Chars)
  | 0, _ => none
  | fuel + 1, s =>
    match skipWs s with
    | [] => none
    | c :: r =>
      if c = ',' then
        match parseValue fuel r with
        | none => none
        | some (v, r2) =>
          match parseArrTail fuel r2 with
          | none => none
          | some (tl, r3) => some (v :: tl, r3)
      else if c = ']' then some ([], r)
      else none

/-- Parses one `"key": value` object member. -/
def parseMember : Nat → Chars → Option ((Chars × JVal) × Chars)
  | 0, _ => none
  | fuel + 1, s =>
    match skipWs s with
    | [] => none
    | c :: r =>
      if c = '"' then
        match parseStr r with
        | none => none
        | some (k, r2) =>
          match skipWs r2 with
          | [] => none
          | c2 :: r3 =>
            if c2 = ':' then
              match parseValue fuel r3 with
              | none => none
              | some (v, r4) => some ((k, v), r4)
            else none
      else none

end

/-- Modelled from the spec: `decode(bytes) -> mapping` of the missing
`asjson` serializer (`json.loads`): a plain JSON parse of the whole input,
failing (the `MalformedDocument` error) on anything else.  Trailing
whitespace is tolerated, as `json.loads` does. -/
def decode (s : Chars) : Option JVal :=
  match parseValue (s.length + 1) s with
  | none => none
  | some (v, rest) => if skipWs rest = [] then some v else none

/-- Input may continue with anything but a digit: the condition under which a
rendered integer is parsed back exactly (every separator and closer the
renderer emits satisfies it). -/
def sepOk : Chars → Bool
  | [] => true
  | c :: _ => !isDigitChar c

/-- Separator emitted between consecutive items or members. -/
def itemSep {α : Type} (tl : List α) : Chars := if tl.isEmpty then [] else [',', '\n']

/-- Exact text that follows the first item of a rendered nonempty array:
remaining items, then newline, indentation and the closing bracket. -/
def arrTailRender (ind ind0 : Nat) (tl : List JVal) (rest : Chars) : Chars :=
  itemSep tl ++ (renderItems ind tl ++ '\n' :: (indentChars ind0 ++ ']' :: rest))

/-- Exact text that follows the first member of a rendered nonempty object. -/
def objTailRender (ind ind0 : Nat) (tl : List (Chars × JVal)) (rest : Chars) : Chars :=
  itemSep tl ++ (renderMembers ind tl ++ '\n' :: (indentChars ind0 ++ '}' :: rest))

mutual

/-- Fuel needed by `parseValue` to traverse a rendered value: one unit per
mutual parser call.  Strings cost nothing extra since `parseStr` is not
fueled. -/
def jsizeVal : JVal → Nat
  | .arr [] => 1
  | .arr (v :: tl) => 1 + (jsizeVal v + jsizeArrTail tl)
  | .obj [] => 1
  | .obj ((_, v) :: tl) => 1 + ((1 + jsizeVal v) + jsizeObjTail tl)
  | _ => 1

/-- Fuel needed by `parseArrTail` for the remaining items. -/
def jsizeArrTail : List JVal → Nat
  | [] => 1
  | v :: tl => 1 + (jsizeVal v + jsizeArrTail tl)

/-- Fuel needed by `parseObjTail` for the remaining members. -/
def jsizeObjTail : List (Chars × JVal) → Nat
  | [] => 1
  | (_, v) :: tl => 1 + ((1 + jsizeVal v) + jsizeObjTail tl)

end

/-- Keys of the association list are pairwise distinct, the invariant every
mapping reached from a Python dict enjoys. -/
def nodupKeys (l : List (Chars × JVal)) : Prop := (l.map Prod.fst).Nodup

instance : DecidablePred nodupKeys := fun l =>
  inferInstanceAs (Decidable (l.map Prod.fst).Nodup)

/-- Error taxonomy of the spec (§7).  The code raises the corresponding
Python exceptions (`ValueError` from `json.loads`, `KeyError`, `IOError`,
`OSError`); the names here follow the spec. -/
inductive DictErr where
  | malformedDocument : DictErr
  | keyNotFound : DictErr
  | writeFailed : DictErr
  | directoryCreateFailed : DictErr
  | notAMapping : DictErr
deriving DecidableEq

/-- Injected outcome of one `safely_write` run: success, or a failure at one
of the three failure points of the claim (temp-file write, close, rename). -/
inductive WriteOutcome where
  | ok : WriteOutcome
  | failTempWrite : WriteOutcome
  | failTempClose : WriteOutcome
  | failRename : WriteOutcome
deriving DecidableEq

/-- Injected outcome of one `os.makedirs` call. -/
inductive MkdirOutcome where
  | ok : MkdirOutcome
  | failAlreadyExists : MkdirOutcome
  | failOther : MkdirOutcome
deriving DecidableEq

/-- State of the directory holding the store's file: the target file's
logical payload (if the file exists) and how many temporary files sit in the
directory.  Gzip compression is abstracted as a transparent byte transform,
so the payload is the pre-compression text; no claim inspects raw compressed
bytes. -/
structure FS where
  target : Option Chars
  temps : Nat

/-- Embeds `safely_write(filename, data, compress)` from src/jsondict.py with
an injected failure point.  `tempfile.mkstemp` first creates a temp file in
the target's directory; a write or close failure then propagates the raw
exception with no cleanup handler, so the temp file stays; a failure of
`shutil.move` is caught (`except IOError`), the temp file is unlinked and the
error re-raised; on success the move atomically replaces the target and the
temp file is gone. -/
def safely_write (fs : FS) (data : Chars) (compress : Bool) (oc : WriteOutcome) :
    FS × Option DictErr :=
  match oc, compress with
  | .ok, _ => ({ target := some data, temps := fs.temps }, none)
  | .failTempWrite, _ => ({ target := fs.target, temps := fs.temps + 1 }, some .writeFailed)
  | .failTempClose, _ => ({ target := fs.target, temps := fs.temps + 1 }, some .writeFailed)
  | .failRename, _ => ({ target := fs.target, temps := fs.temps }, some .writeFailed)

/-- Primitive `os.makedirs`: reports an `OSError` either because the
directory already exists or for another cause (permissions, read-only
filesystem, ...). -/
def osMakedirs (oc : MkdirOutcome) : Option DictErr :=
  match oc with
  | .ok => none
  | .failAlreadyExists => some .directoryCreateFailed
  | .failOther => some .directoryCreateFailed

/-- Embeds `makedirs(filename)` from src/jsondict.py: when the filename has a
directory component, call `os.makedirs` and swallow every `OSError`
(`except OSError: pass`), whatever its cause. -/
def makedirs (hasDirname : Bool) (oc : MkdirOutcome) : Option DictErr :=
  if hasDirname then
    match osMakedirs oc with
    | some _ => none
    | none => none
  else none

/-- Embeds the `JsonDict` instance attributes set by `__init__`. -/
structure Store where
  data : List (Chars × JVal)
  filename : Chars
  autosave : Bool
  compress : Bool
  safelyWrite : Bool

/-- The store's file plus the chronological list of payloads successfully
written to it (to observe how often a call rewrites the file). -/
structure World where
  fs : FS
  history : List Chars

/-- True when the path has a directory component (`os.path.dirname` is
nonempty). -/
def hasDirComponent (filename : Chars) : Bool := filename.contains '/'

/-- Embeds `JsonDict.save`: ensure the parent directory exists, serialize the
whole mapping, then either the safe temp-file-and-move path or a direct
write.  `mkOc` and `wOc` inject the outcomes of the two fallible steps; in
the non-safe branch a failing write may leave a corrupt partial file — the
spec accepts that tradeoff and no claim depends on it, so that branch is
modelled as the completed write. -/
def save (st : Store) (w : World) (mkOc : MkdirOutcome) (wOc : WriteOutcome) :
    World × Option DictErr :=
  match makedirs (hasDirComponent st.filename) mkOc with
  | some e => (w, some e)
  | none =>
    let dump := encode st.data
    if st.safelyWrite then
      match safely_write w.fs dump st.compress wOc with
      | (fs2, none) => ({ fs := fs2, history := w.history ++ [dump] }, none)
      | (fs2, some e) => ({ fs := fs2, history := w.history }, some e)
    else
      ({ fs := { target := some dump, temps := w.fs.temps }, history := w.history ++ [dump] },
        none)

/-- Embeds the `if self.autosave: self.save()` hook every mutating method
runs after delegating to the underlying dict. -/
def autosaveHook (st : Store) (w : World) (mkOc : MkdirOutcome) (wOc : WriteOutcome) :
    Store × World × Option DictErr :=
  if st.autosave then
    match save st w mkOc wOc with
    | (w', e) => (st, w', e)
  else (st, w, none)

/-- Inserts or replaces a key in the association list, keeping an existing
key's position (CPython dict assignment; member order never reaches the file
since `encode` sorts). -/
def objInsert (k : Chars) (v : JVal) : List (Chars × JVal) → List (Chars × JVal)
  | [] => [(k, v)]
  | (k0, v0) :: tl => if k0 = k then (k0, v) :: tl else (k0, v0) :: objInsert k v tl

/-- Removes a key from the association list. -/
def objRemove (k : Chars) : List (Chars × JVal) → List (Chars × JVal)
  | [] => []
  | (k0, v0) :: tl => if k0 = k then tl else (k0, v0) :: objRemove k tl

/-- Key membership in the mapping. -/
def keyMem (k : Chars) (l : List (Chars × JVal)) : Bool := (List.lookup k l).isSome

/-- Embeds `JsonDict.__setitem__`: mutate the mapping, then the autosave
hook. -/
def setItem (st : Store) (w : World) (k : Chars) (v : JVal) (mkOc : MkdirOutcome)
    (wOc : WriteOutcome) : Store × World × Option DictErr :=
  autosaveHook { st with data := objInsert k v st.data } w mkOc wOc

/-- Embeds `JsonDict.__delitem__`: `dict.__delitem__` raises `KeyError` on an
absent key before the autosave hook can run; on a present key the pair is
removed and the hook runs. -/
def delItem (st : Store) (w : World) (k : Chars) (mkOc : MkdirOutcome) (wOc : WriteOutcome) :
    Store × World × Option DictErr :=
  if keyMem k st.data then
    autosaveHook { st with data := objRemove k st.data } w mkOc wOc
  else (st, w, some .keyNotFound)

/-- Embeds `JsonDict.clear`: empty the mapping, then the autosave hook. -/
def clearStore (st : Store) (w : World) (mkOc : MkdirOutcome) (wOc : WriteOutcome) :
    Store × World × Option DictErr :=
  autosaveHook { st with data := [] } w mkOc wOc

/-- Embeds `JsonDict.update`: fold the entries into the mapping (later
duplicates win, as for `dict.update`), then one autosave hook. -/
def updateStore (st : Store) (w : World) (entries : List (Chars × JVal)) (mkOc : MkdirOutcome)
    (wOc : WriteOutcome) : Store × World × Option DictErr :=
  autosaveHook { st with data := entries.foldl (fun acc p => objInsert p.1 p.2 acc) st.data }
    w mkOc wOc

/-- Embeds `JsonDict.load`: read the file, `json.loads` it (raising
`MalformedDocument` on invalid JSON, before any mutation), then `clear()`
followed by `update(data)` — each of which runs the autosave hook.  A
document whose top level is not a mapping still runs `clear()` and then
fails (`dict.update` cannot consume it).  The missing-file arm stands for
the `IOError` that `open` would raise; `__init__` only calls `load` when a
file exists, so no claim reaches it. -/
def load (st : Store) (w : World) (mkOc : MkdirOutcome) (wOc : WriteOutcome) :
    Store × World × Option DictErr :=
  match w.fs.target with
  | none => (st, w, some .malformedDocument)
  | some bytes =>
    match decode bytes with
    | none => (st, w, some .malformedDocument)
    | some v =>
      match clearStore st w mkOc wOc with
      | (st1, w1, some e) => (st1, w1, some e)
      | (st1, w1, none) =>
        match v with
        | .obj kvs => updateStore st1 w1 kvs mkOc wOc
        | _ => (st1, w1, some .notAMapping)

/-- The compression suffix of the file-extension convention. -/
def gzSuffix : Chars := ['.', 'g', 'z']

/-- Embeds the `compress` resolution of `JsonDict.__init__`: an explicit
argument wins; otherwise compression is inferred from the `.gz` suffix
(`filename.endswith('.gz')`). -/
def resolveCompress (compressArg : Option Bool) (filename : Chars) : Bool :=
  match compressArg with
  | some b => b
  | none => gzSuffix.isSuffixOf filename

/-- Embeds `JsonDict.__init__(filename, autosave=False, compress=None,
safely_write=True)`: record the configuration, start from the empty mapping,
and when a file exists at the path load it synchronously. -/
def dictInit (filename : Chars) (autosave : Bool) (compressArg : Option Bool)
    (sw : Bool) (w : World) (mkOc : MkdirOutcome) (wOc : WriteOutcome) :
    Store × World × Option DictErr :=
  let st : Store :=
    { data := [], filename := filename, autosave := autosave,
      compress := resolveCompress compressArg filename, safelyWrite := sw }
  match w.fs.target with
  | none => (st, w, none)
  | some _ => load st w mkOc wOc

example : encode [("x".toList, .int 1), ("y".toList, .int 2)]
    = "\x7b\n  \"x\": 1,\n  \"y\": 2\n\x7d".toList := by rfl

example : encode [("b".toList, .int 2), ("created".toList, .datetime 2013 1 27 21 14 0),
      ("a".toList, .int 1)]
    = "\x7b\n  \"a\": 1,\n  \"b\": 2,\n  \"created\": \"2013-01-27T21:14:00Z\"\n\x7d".toList := by rfl

example : encode [] = "\x7b\x7d".toList := by rfl

example : decode (encode []) = some (.obj []) := by rfl

example : decode (encode [("x".toList, .int 1), ("y".toList, .int 2)])
    = some (.obj [("x".toList, .int 1), ("y".toList, .int 2)]) := by rfl

example : decode (encode [("b".toList, .int 2), ("created".toList, .datetime 2013 1 27 21 14 0),
      ("a".toList, .int 1)])
    = some (.obj [("a".toList, .int 1), ("b".toList, .int 2),
        ("created".toList, .str "2013-01-27T21:14:00Z".toList)]) := by rfl

example : decode "nope".toList = none := by rfl

example : decode "[-12, \"a\\nb\", true, null, \x7b\x7d]".toList
    = some (.arr [.int (-12), .str ['a', '\n', 'b'], .bool true, .null, .obj []]) := by rfl

theorem skipWs_not_ws {c : Char} (h : isWsChar c = false) (tl : Chars) :
    skipWs (c :: tl) = c :: tl := by
  simp [skipWs, h]

theorem skipWs_ws {c : Char} (h : isWsChar c = true) (tl : Chars) :
    skipWs (c :: tl) = skipWs tl := by
  simp [skipWs, h]

theorem skipWs_replicate_space (n : Nat) (s : Chars) :
    skipWs (List.replicate n ' ' ++ s) = skipWs s := by
  induction n with
  | zero => rfl
  | succ n ih =>
    rw [List.replicate_succ, List.cons_append, skipWs_ws (by decide)]
    exact ih

theorem skipWs_indent (n : Nat) (s : Chars) : skipWs (indentChars n ++ s) = skipWs s :=
  skipWs_replicate_space (2 * n) s

theorem skipWs_newline (s : Chars) : skipWs ('\n' :: s) = skipWs s :=
  skipWs_ws (by decide) s

theorem skipWs_idem (s : Chars) : skipWs (skipWs s) = skipWs s := by
  induction s with
  | nil => rfl
  | cons c tl ih =>
    by_cases h : isWsChar c = true
    · rw [skipWs_ws h]; exact ih
    · rw [skipWs_not_ws (by revert h; cases isWsChar c <;> simp),
        skipWs_not_ws (by revert h; cases isWsChar c <;> simp)]

theorem toNat_digitChar {d : Nat} (h : d < 10) : (digitChar d).toNat = 48 + d := by
  interval_cases d <;> decide

theorem isDigitChar_digitChar {d : Nat} (h : d < 10) : isDigitChar (digitChar d) = true := by
  interval_cases d <;> decide

theorem natToCharsAux_eq : ∀ (fuel n : Nat) (acc : Chars), n ≤ fuel →
    natToCharsAux fuel n acc = ((Nat.digits 10 n).reverse.map digitChar) ++ acc := by
  intro fuel
  induction fuel with
  | zero =>
    intro n acc h
    have hn : n = 0 := by omega
    subst hn
    simp [natToCharsAux]
  | succ fuel ih =>
    intro n acc h
    by_cases hn : n = 0
    · subst hn; simp [natToCharsAux]
    · have hdiv : n / 10 ≤ fuel := by
        have := Nat.div_lt_self (Nat.pos_of_ne_zero hn) (by norm_num : 1 < 10)
        omega
      rw [natToCharsAux, if_neg hn, ih (n / 10) _ hdiv,
        Nat.digits_def' (by norm_num : 1 < 10) (Nat.pos_of_ne_zero hn)]
      simp [List.append_assoc]

theorem natToChars_pos {n : Nat} (h : n ≠ 0) :
    natToChars n = (Nat.digits 10 n).reverse.map digitChar := by
  rw [natToChars, if_neg h, natToCharsAux_eq n n [] le_rfl, List.append_nil]

theorem natToChars_all_digits {n : Nat} : ∀ c ∈ natToChars n, isDigitChar c = true := by
  by_cases h : n = 0
  · subst h; intro c hc
    simp [natToChars] at hc
    subst hc; decide
  · rw [natToChars_pos h]
    intro c hc
    obtain ⟨d, hd, rfl⟩ := List.mem_map.1 hc
    have : d < 10 :=
      Nat.digits_lt_base (by norm_num) (List.mem_reverse.1 hd)
    exact isDigitChar_digitChar this

theorem natToChars_ne_nil {n : Nat} : natToChars n ≠ [] := by
  by_cases h : n = 0
  · subst h; simp [natToChars]
  · rw [natToChars_pos h]
    simp [Nat.digits_ne_nil_iff_ne_zero.2 h]

theorem parseNatAux_stop {rest : Chars} (h : sepOk rest = true) (acc : Nat) :
    parseNatAux acc rest = (acc, rest) := by
  cases rest with
  | nil => rfl
  | cons c tl =>
    have : isDigitChar c = false := by
      revert h; simp [sepOk]
    simp [parseNatAux, this]

theorem parseNatAux_digits : ∀ (ds : List Nat) (acc : Nat) (rest : Chars),
    (∀ d ∈ ds, d < 10) →
    parseNatAux acc (ds.map digitChar ++ rest)
      = parseNatAux (ds.foldl (fun a d => 10 * a + d) acc) rest := by
  intro ds
  induction ds with
  | nil => intro acc rest _; rfl
  | cons d tl ih =>
    intro acc rest hd
    have hd0 : d < 10 := hd d (List.mem_cons_self d tl)
    rw [List.map_cons, List.cons_append, parseNatAux,
      if_pos (isDigitChar_digitChar hd0), toNat_digitChar hd0]
    have : 48 + d - 48 = d := by omega
    rw [this, ih _ rest (fun x hx => hd x (List.mem_cons_of_mem d hx))]
    rfl

theorem foldl_digits_shift (ds : List Nat) : ∀ a : Nat,
    ds.foldl (fun x d => 10 * x + d) a
      = a * 10 ^ ds.length + ds.foldl (fun x d => 10 * x + d) 0 := by
  induction ds with
  | nil => intro a; simp
  | cons d tl ih =>
    intro a
    rw [List.foldl_cons, List.foldl_cons, ih (10 * a + d), ih (10 * 0 + d),
      List.length_cons, pow_succ]
    ring

theorem foldr_eq_ofDigits : ∀ l : List Nat,
    l.foldr (fun d x => 10 * x + d) 0 = Nat.ofDigits 10 l := by
  intro l
  induction l with
  | nil => rfl
  | cons d tl ih =>
    rw [List.foldr_cons, ih, Nat.ofDigits_cons]
    omega

theorem foldl_reverse_digits (n : Nat) :
    (Nat.digits 10 n).reverse.foldl (fun x d => 10 * x + d) 0 = n := by
  rw [List.foldl_reverse, foldr_eq_ofDigits, Nat.ofDigits_digits]

theorem parseStr_quote (tl : Chars) : parseStr ('"' :: tl) = some ([], tl) := by
  rw [parseStr.eq_def]
  simp [unescapeChar, hexVal]

theorem parseStr_esc_quote (tl : Chars) :
    parseStr ('\\' :: '"' :: tl)
      = match parseStr tl with
        | none => none
        | some r => some ('"' :: r.1, r.2) := by
  rw [parseStr.eq_def]
  simp [unescapeChar, hexVal]

theorem parseStr_esc_backslash (tl : Chars) :
    parseStr ('\\' :: '\\' :: tl)
      = match parseStr tl with
        | none => none
        | some r => some ('\\' :: r.1, r.2) := by
  rw [parseStr.eq_def]
  simp [unescapeChar, hexVal]

theorem parseStr_esc_u00 {h1 h2 : Char} {x3 x4 : Nat} (e1 : hexVal h1 = some x3)
    (e2 : hexVal h2 = some x4) (tl : Chars) :
    parseStr ('\\' :: 'u' :: '0' :: '0' :: h1 :: h2 :: tl)
      = match parseStr tl with
        | none => none
        | some r => some (Char.ofNat (x3 * 16 + x4) :: r.1, r.2) := by
  rw [parseStr.eq_def]
  simp [e1, e2, show hexVal '0' = some 0 from by decide]

theorem parseStr_plain {c : Char} (hq : c ≠ '"') (hb : c ≠ '\\') (tl : Chars) :
    parseStr (c :: tl)
      = match parseStr tl with
        | none => none
        | some r => some (c :: r.1, r.2) := by
  rw [parseStr.eq_def]
  simp only [if_neg hq, if_neg hb]

theorem hexVal_hexDigitChar {x : Nat} (h : x < 16) : hexVal (hexDigitChar x) = some x := by
  interval_cases x <;> decide

theorem parseStr_escapeStr : ∀ (s rest : Chars),
    parseStr (escapeStr s ++ '"' :: rest) = some (s, rest) := by
  intro s
  induction s with
  | nil => intro rest; exact parseStr_quote rest
  | cons c tl ih =>
    intro rest
    show parseStr ((escapeChar c ++ escapeStr tl) ++ '"' :: rest) = _
    rw [List.append_assoc]
    by_cases hq : c = '"'
    · subst hq
      rw [show escapeChar '"' = ['\\', '"'] from by rfl]
      simp only [List.cons_append, List.nil_append]
      rw [parseStr_esc_quote, ih rest]
    · by_cases hb : c = '\\'
      · subst hb
        rw [show escapeChar '\\' = ['\\', '\\'] from by rfl]
        simp only [List.cons_append, List.nil_append]
        rw [parseStr_esc_backslash, ih rest]
      · by_cases hc : c.toNat < 32
        · rw [escapeChar, if_neg hq, if_neg hb, if_pos hc]
          simp only [List.cons_append, List.nil_append]
          rw [parseStr_esc_u00 (hexVal_hexDigitChar (by omega))
            (hexVal_hexDigitChar (Nat.mod_lt _ (by norm_num))), ih rest]
          have e3 : c.toNat / 16 * 16 + c.toNat % 16 = c.toNat := by omega
          rw [e3, Char.ofNat_toNat]
        · rw [escapeChar, if_neg hq, if_neg hb, if_neg hc]
          simp only [List.cons_append, List.nil_append]
          rw [parseStr_plain hq hb, ih rest]

theorem parseValue_ws {a b : Chars} (h : skipWs a = skipWs b) (fuel : Nat) :
    parseValue fuel a = parseValue fuel b := by
  cases fuel with
  | zero => rfl
  | succ f =>
    rw [parseValue.eq_def, parseValue.eq_def]
    simp only [h]

theorem parseMember_ws {a b : Chars} (h : skipWs a = skipWs b) (fuel : Nat) :
    parseMember fuel a = parseMember fuel b := by
  cases fuel with
  | zero => rfl
  | succ f =>
    rw [parseMember.eq_def, parseMember.eq_def]
    simp only [h]

theorem parseObjTail_ws {a b : Chars} (h : skipWs a = skipWs b) (fuel : Nat) :
    parseObjTail fuel a = parseObjTail fuel b := by
  cases fuel with
  | zero => rfl
  | succ f =>
    rw [parseObjTail.eq_def, parseObjTail.eq_def]
    simp only [h]

theorem parseArrTail_ws {a b : Chars} (h : skipWs a = skipWs b) (fuel : Nat) :
    parseArrTail fuel a = parseArrTail fuel b := by
  cases fuel with
  | zero => rfl
  | succ f =>
    rw [parseArrTail.eq_def, parseArrTail.eq_def]
    simp only [h]

theorem parseValue_null (f : Nat) (rest : Chars) :
    parseValue (f + 1) ('n' :: 'u' :: 'l' :: 'l' :: rest) = some (.null, rest) := by
  rw [parseValue.eq_def]
  simp [skipWs, isWsChar]

theorem parseValue_true (f : Nat) (rest : Chars) :
    parseValue (f + 1) ('t' :: 'r' :: 'u' :: 'e' :: rest) = some (.bool true, rest) := by
  rw [parseValue.eq_def]
  simp [skipWs, isWsChar]

theorem parseValue_false (f : Nat) (rest : Chars) :
    parseValue (f + 1) ('f' :: 'a' :: 'l' :: 's' :: 'e' :: rest)
      = some (.bool false, rest) := by
  rw [parseValue.eq_def]
  simp [skipWs, isWsChar]

theorem parseValue_quote (f : Nat) (r : Chars) :
    parseValue (f + 1) ('"' :: r)
      = match parseStr r with
        | none => none
        | some (s2, r2) => some (.str s2, r2) := by
  rw [parseValue.eq_def]
  simp [skipWs, isWsChar]

theorem parseValue_lbrace (f : Nat) (r : Chars) :
    parseValue (f + 1) ('{' :: r)
      = match skipWs r with
        | [] => none
        | c2 :: r2 =>
          if c2 = '}' then some (.obj [], r2)
          else
            match parseMember f (c2 :: r2) with
            | none => none
            | some (kv, r3) =>
              match parseObjTail f r3 with
              | none => none
              | some (tl, r4) => some (.obj (kv :: tl), r4) := by
  rw [parseValue.eq_def]
  simp [skipWs, isWsChar]

theorem parseValue_lbracket (f : Nat) (r : Chars) :
    parseValue (f + 1) ('[' :: r)
      = match skipWs r with
        | [] => none
        | c2 :: r2 =>
          if c2 = ']' then some (.arr [], r2)
          else
            match parseValue f (c2 :: r2) with
            | none => none
            | some (v, r3) =>
              match parseArrTail f r3 with
              | none => none
              | some (tl, r4) => some (.arr (v :: tl), r4) := by
  rw [parseValue.eq_def]
  simp [skipWs, isWsChar]

theorem parseValue_dash (f : Nat) (r : Chars) :
    parseValue (f + 1) ('-' :: r)
      = match parseNatStrict r with
        | none => none
        | some (n, r2) => some (.int (-(n : Int)), r2) := by
  rw [parseValue.eq_def]
  simp [skipWs, isWsChar]

theorem char_ne_of_digit_range {c : Char} (h48 : 48 ≤ c.toNat) (h57 : c.toNat ≤ 57)
    {d : Char} (hd : d.toNat < 48 ∨ 57 < d.toNat) : c ≠ d := by
  intro e
  subst e
  omega

theorem parseValue_digit {c : Char} (h : isDigitChar c = true) (f : Nat) (r : Chars) :
    parseValue (f + 1) (c :: r)
      = match parseNatStrict (c :: r) with
        | none => none
        | some (n, r2) => some (.int (n : Int), r2) := by
  have hn : 48 ≤ c.toNat ∧ c.toNat ≤ 57 := by
    simpa [isDigitChar, Bool.and_eq_true] using h
  have hne : ∀ d : Char, d.toNat < 48 ∨ 57 < d.toNat → c ≠ d :=
    fun d hd => char_ne_of_digit_range hn.1 hn.2 hd
  have hws : isWsChar c = false := by
    simp only [isWsChar, Bool.or_eq_false_iff, decide_eq_false_iff_not]
    exact ⟨⟨⟨hne ' ' (by decide), hne '\n' (by decide)⟩, hne '\t' (by decide)⟩,
      hne '\r' (by decide)⟩
  rw [parseValue.eq_def]
  simp only [skipWs_not_ws hws]
  simp only [if_neg (hne '{' (by decide)), if_neg (hne '[' (by decide)),
    if_neg (hne '"' (by decide)), if_neg (hne 'n' (by decide)),
    if_neg (hne 't' (by decide)), if_neg (hne 'f' (by decide)),
    if_neg (hne '-' (by decide)), if_pos h]

theorem parseObjTail_comma (f : Nat) (r : Chars) :
    parseObjTail (f + 1) (',' :: r)
      = match parseMember f r with
        | none => none
        | some (kv, r2) =>
          match parseObjTail f r2 with
          | none => none
          | some (tl, r3) => some (kv :: tl, r3) := by
  rw [parseObjTail.eq_def]
  simp [skipWs, isWsChar]

theorem parseObjTail_rbrace (f : Nat) (r : Chars) :
    parseObjTail (f + 1) ('}' :: r) = some ([], r) := by
  rw [parseObjTail.eq_def]
  simp [skipWs, isWsChar]

theorem parseArrTail_comma (f : Nat) (r : Chars) :
    parseArrTail (f + 1) (',' :: r)
      = match parseValue f r with
        | none => none
        | some (v, r2) =>
          match parseArrTail f r2 with
          | none => none
          | some (tl, r3) => some (v :: tl, r3) := by
  rw [parseArrTail.eq_def]
  simp [skipWs, isWsChar]

theorem parseArrTail_rbracket (f : Nat) (r : Chars) :
    parseArrTail (f + 1) (']' :: r) = some ([], r) := by
  rw [parseArrTail.eq_def]
  simp [skipWs, isWsChar]

theorem parseMember_quote (f : Nat) (r : Chars) :
    parseMember (f + 1) ('"' :: r)
      = match parseStr r with
        | none => none
        | some (k, r2) =>
          match skipWs r2 with
          | [] => none
          | c2 :: r3 =>
            if c2 = ':' then
              match parseValue f r3 with
              | none => none
              | some (v, r4) => some ((k, v), r4)
            else none := by
  rw [parseMember.eq_def]
  simp [skipWs, isWsChar]

theorem jsizeVal_pos : ∀ v : JVal, 1 ≤ jsizeVal v := by
  intro v
  cases v with
  | arr xs => cases xs <;> simp [jsizeVal]
  | obj kvs =>
    cases kvs with
    | nil => simp [jsizeVal]
    | cons p tl => obtain ⟨k, v⟩ := p; simp [jsizeVal]
  | null => simp [jsizeVal]
  | bool b => simp [jsizeVal]
  | int n => simp [jsizeVal]
  | str s => simp [jsizeVal]
  | date y m d => simp [jsizeVal]
  | datetime y mo d h mi s => simp [jsizeVal]

theorem jsizeArrTail_pos : ∀ tl : List JVal, 1 ≤ jsizeArrTail tl := by
  intro tl
  cases tl <;> simp [jsizeArrTail]

theorem jsizeObjTail_pos : ∀ tl : List (Chars × JVal), 1 ≤ jsizeObjTail tl := by
  intro tl
  cases tl with
  | nil => simp [jsizeObjTail]
  | cons p tl => obtain ⟨k, v⟩ := p; simp [jsizeObjTail]

theorem isWsChar_eq_false_of_digit {c : Char} (h48 : 48 ≤ c.toNat) (h57 : c.toNat ≤ 57) :
    isWsChar c = false := by
  simp only [isWsChar, Bool.or_eq_false_iff, decide_eq_false_iff_not]
  exact ⟨⟨⟨char_ne_of_digit_range h48 h57 (by decide),
    char_ne_of_digit_range h48 h57 (by decide)⟩,
    char_ne_of_digit_range h48 h57 (by decide)⟩,
    char_ne_of_digit_range h48 h57 (by decide)⟩

theorem renderVal_head (v : JVal) (ind : Nat) :
    ∃ c cs, renderVal ind v = c :: cs ∧ (isWsChar c = false ∧ c ≠ ']' ∧ c ≠ '}') := by
  cases v with
  | null => exact ⟨'n', _, rfl, by decide⟩
  | bool b => cases b with
    | true => exact ⟨'t', _, rfl, by decide⟩
    | false => exact ⟨'f', _, rfl, by decide⟩
  | str s => exact ⟨'"', _, rfl, by decide⟩
  | date y m d => exact ⟨'"', _, rfl, by decide⟩
  | datetime y mo d h mi s => exact ⟨'"', _, rfl, by decide⟩
  | arr xs => cases xs with
    | nil => exact ⟨'[', _, rfl, by decide⟩
    | cons v tl => exact ⟨'[', _, rfl, by decide⟩
  | obj kvs => cases kvs with
    | nil => exact ⟨'{', _, rfl, by decide⟩
    | cons m tl => exact ⟨'{', _, rfl, by decide⟩
  | int n =>
    by_cases hneg : n < 0
    · refine ⟨'-', natToChars n.natAbs, ?_, by decide, by decide, by decide⟩
      show intToChars n = _
      rw [intToChars, if_pos hneg]
    · cases hnc : natToChars n.natAbs with
      | nil => exact absurd hnc natToChars_ne_nil
      | cons c cs =>
        have hc : isDigitChar c = true := by
          apply natToChars_all_digits
          rw [hnc]
          exact List.mem_cons_self c cs
        have hn : 48 ≤ c.toNat ∧ c.toNat ≤ 57 := by
          simpa [isDigitChar, Bool.and_eq_true] using hc
        refine ⟨c, cs, ?_, isWsChar_eq_false_of_digit hn.1 hn.2,
          char_ne_of_digit_range hn.1 hn.2 (by decide),
          char_ne_of_digit_range hn.1 hn.2 (by decide)⟩
        show intToChars n = _
        rw [intToChars, if_neg hneg, hnc]

theorem sepOk_arrTailRender (ind ind0 : Nat) (tl : List JVal) (rest : Chars) :
    sepOk (arrTailRender ind ind0 tl rest) = true := by
  cases tl <;> rfl

theorem sepOk_objTailRender (ind ind0 : Nat) (tl : List (Chars × JVal)) (rest : Chars) :
    sepOk (objTailRender ind ind0 tl rest) = true := by
  cases tl <;> rfl

theorem parseNat_natToChars (n : Nat) (rest : Chars) (h : sepOk rest = true) :
    parseNatStrict (natToChars n ++ rest) = some (n, rest) := by
  by_cases hn : n = 0
  · subst hn
    show parseNatStrict ('0' :: rest) = some (0, rest)
    rw [parseNatStrict, if_pos (by decide)]
    rw [parseNatAux, if_pos (by decide)]
    have h0 : (10 : Nat) * 0 + ('0'.toNat - 48) = 0 := by decide
    rw [h0, parseNatAux_stop h]
  · cases hds : (Nat.digits 10 n).reverse.map digitChar with
    | nil =>
      exact absurd (by rw [natToChars_pos hn, hds]) natToChars_ne_nil
    | cons c tl =>
      have hc : isDigitChar c = true := by
        apply natToChars_all_digits (n := n)
        rw [natToChars_pos hn, hds]
        exact List.mem_cons_self c tl
      rw [natToChars_pos hn, hds, List.cons_append, parseNatStrict, if_pos hc]
      have : c :: (tl ++ rest) = (Nat.digits 10 n).reverse.map digitChar ++ rest := by
        rw [hds, List.cons_append]
      rw [this, parseNatAux_digits _ _ _
        (fun d hd => Nat.digits_lt_base (by norm_num) (List.mem_reverse.1 hd)),
        foldl_reverse_digits, parseNatAux_stop h]

theorem parse_render_main : ∀ fuel : Nat,
    (∀ (v : JVal) (ind : Nat) (rest : Chars), jsizeVal v ≤ fuel → sepOk rest = true →
      parseValue fuel (renderVal ind v ++ rest) = some (stripDates v, rest))
    ∧ (∀ (k : Chars) (v : JVal) (ind : Nat) (rest : Chars),
        1 + jsizeVal v ≤ fuel → sepOk rest = true →
        parseMember fuel
            ('"' :: (escapeStr k ++ ('"' :: (':' :: (' ' :: (renderVal ind v ++ rest))))))
          = some ((k, stripDates v), rest))
    ∧ (∀ (tl : List JVal) (ind ind0 : Nat) (rest : Chars), jsizeArrTail tl ≤ fuel →
        parseArrTail fuel (arrTailRender ind ind0 tl rest) = some (stripList tl, rest))
    ∧ (∀ (tl : List (Chars × JVal)) (ind ind0 : Nat) (rest : Chars),
        jsizeObjTail tl ≤ fuel →
        parseObjTail fuel (objTailRender ind ind0 tl rest) = some (stripPairs tl, rest)) := by
  intro fuel
  induction fuel with
  | zero =>
    refine ⟨fun v _ _ h _ => absurd h (by have := jsizeVal_pos v; omega),
      fun _ v _ _ h _ => absurd h (by have := jsizeVal_pos v; omega),
      fun tl _ _ _ h => absurd h (by have := jsizeArrTail_pos tl; omega),
      fun tl _ _ _ h => absurd h (by have := jsizeObjTail_pos tl; omega)⟩
  | succ f ih =>
    obtain ⟨ihV, ihM, ihA, ihO⟩ := ih
    refine ⟨?_, ?_, ?_, ?_⟩
    · intro v ind rest hsz hsep
      cases v with
      | null =>
        have hr : renderVal ind JVal.null ++ rest = 'n' :: 'u' :: 'l' :: 'l' :: rest := rfl
        rw [hr, parseValue_null]
        rfl
      | bool b =>
        cases b with
        | true =>
          have hr : renderVal ind (JVal.bool true) ++ rest
              = 't' :: 'r' :: 'u' :: 'e' :: rest := rfl
          rw [hr, parseValue_true]
          rfl
        | false =>
          have hr : renderVal ind (JVal.bool false) ++ rest
              = 'f' :: 'a' :: 'l' :: 's' :: 'e' :: rest := rfl
          rw [hr, parseValue_false]
          rfl
      | int n =>
        by_cases hneg : n < 0
        · have hr : renderVal ind (JVal.int n) ++ rest
              = '-' :: (natToChars n.natAbs ++ rest) := by
            show intToChars n ++ rest = _
            rw [intToChars, if_pos hneg, List.cons_append]
          rw [hr, parseValue_dash, parseNat_natToChars _ _ hsep]
          have habs : -(n.natAbs : Int) = n := by omega
          dsimp only
          rw [habs]
          rfl
        · cases hnc : natToChars n.natAbs with
          | nil => exact absurd hnc natToChars_ne_nil
          | cons c cs =>
            have hc : isDigitChar c = true := by
              apply natToChars_all_digits
              rw [hnc]
              exact List.mem_cons_self c cs
            have hr : renderVal ind (JVal.int n) ++ rest = c :: (cs ++ rest) := by
              show intToChars n ++ rest = _
              rw [intToChars, if_neg hneg, hnc, List.cons_append]
            rw [hr, parseValue_digit hc]
            have hback : c :: (cs ++ rest) = natToChars n.natAbs ++ rest := by
              rw [hnc, List.cons_append]
            rw [hback, parseNat_natToChars _ _ hsep]
            have habs : (n.natAbs : Int) = n := by omega
            dsimp only
            rw [habs]
            rfl
      | str s =>
        have hr : renderVal ind (JVal.str s) ++ rest
            = '"' :: (escapeStr s ++ '"' :: rest) := by
          show ('"' :: (escapeStr s ++ ['"'])) ++ rest = _
          simp [List.append_assoc]
        rw [hr, parseValue_quote, parseStr_escapeStr]
        rfl
      | date y m d =>
        have hr : renderVal ind (JVal.date y m d) ++ rest
            = '"' :: (escapeStr (dateChars y m d) ++ '"' :: rest) := by
          show ('"' :: (escapeStr (dateChars y m d) ++ ['"'])) ++ rest = _
          simp [List.append_assoc]
        rw [hr, parseValue_quote, parseStr_escapeStr]
        rfl
      | datetime y mo d h mi s =>
        have hr : renderVal ind (JVal.datetime y mo d h mi s) ++ rest
            = '"' :: (escapeStr (datetimeChars y mo d h mi s) ++ '"' :: rest) := by
          show ('"' :: (escapeStr (datetimeChars y mo d h mi s) ++ ['"'])) ++ rest = _
          simp [List.append_assoc]
        rw [hr, parseValue_quote, parseStr_escapeStr]
        rfl
      | arr xs =>
        cases xs with
        | nil =>
          have hr : renderVal ind (JVal.arr []) ++ rest = '[' :: (']' :: rest) := rfl
          rw [hr, parseValue_lbracket, skipWs_not_ws (by decide)]
          simp
          rfl
        | cons v tl =>
          simp only [jsizeVal] at hsz
          have hr : renderVal ind (JVal.arr (v :: tl)) ++ rest
              = '[' :: ('\n' :: (indentChars (ind + 1) ++
                  (renderVal (ind + 1) v ++ arrTailRender (ind + 1) ind tl rest))) := by
            show ('[' :: '\n' :: ((indentChars (ind + 1) ++ (renderVal (ind + 1) v ++
                ((if tl.isEmpty then [] else [',', '\n']) ++ renderItems (ind + 1) tl)))
                  ++ '\n' :: (indentChars ind ++ [']']))) ++ rest = _
            simp [arrTailRender, itemSep, List.append_assoc]
          rw [hr, parseValue_lbracket, skipWs_newline, skipWs_indent]
          obtain ⟨c, cs, hrv, hws, hbr, _⟩ := renderVal_head v (ind + 1)
          rw [hrv, List.cons_append, skipWs_not_ws hws]
          dsimp only
          rw [if_neg hbr, ← List.cons_append, ← hrv,
            ihV v (ind + 1) _ (by omega) (sepOk_arrTailRender (ind + 1) ind tl rest)]
          dsimp only
          rw [ihA tl (ind + 1) ind rest (by omega)]
          rfl
      | obj kvs =>
        cases kvs with
        | nil =>
          have hr : renderVal ind (JVal.obj []) ++ rest = '{' :: ('}' :: rest) := rfl
          rw [hr, parseValue_lbrace, skipWs_not_ws (by decide)]
          simp
          rfl
        | cons m tl =>
          obtain ⟨k, v⟩ := m
          simp only [jsizeVal] at hsz
          have hr : renderVal ind (JVal.obj ((k, v) :: tl)) ++ rest
              = '{' :: ('\n' :: (indentChars (ind + 1) ++
                  ('"' :: (escapeStr k ++ ('"' :: (':' :: (' ' :: (renderVal (ind + 1) v ++
                    objTailRender (ind + 1) ind tl rest)))))))) := by
            show ('{' :: '\n' :: ((indentChars (ind + 1) ++
                (('"' :: (escapeStr k ++ ['"'])) ++ ':' :: ' ' :: (renderVal (ind + 1) v ++
                  ((if tl.isEmpty then [] else [',', '\n']) ++ renderMembers (ind + 1) tl))))
                    ++ '\n' :: (indentChars ind ++ ['}']))) ++ rest = _
            simp [objTailRender, itemSep, List.append_assoc]
          rw [hr, parseValue_lbrace, skipWs_newline, skipWs_indent,
            skipWs_not_ws (by decide)]
          dsimp only
          rw [if_neg (by decide : ¬ ('"' : Char) = '}'),
            ihM k v (ind + 1) _ (by omega) (sepOk_objTailRender (ind + 1) ind tl rest)]
          dsimp only
          rw [ihO tl (ind + 1) ind rest (by omega)]
          rfl
    · intro k v ind rest hsz hsep
      rw [parseMember_quote, parseStr_escapeStr]
      dsimp only
      rw [skipWs_not_ws (by decide)]
      dsimp only
      rw [if_pos rfl, parseValue_ws (skipWs_ws (by decide) _) f,
        ihV v ind rest (by omega) hsep]
    · intro tl ind ind0 rest hsz
      cases tl with
      | nil =>
        have hr : arrTailRender ind ind0 [] rest
            = '\n' :: (indentChars ind0 ++ (']' :: rest)) := by
          simp [arrTailRender, itemSep, show renderItems ind [] = [] from rfl]
        rw [hr, parseArrTail_ws (b := ']' :: rest)
          (by rw [skipWs_newline, skipWs_indent, skipWs_not_ws (by decide)]) (f + 1),
          parseArrTail_rbracket]
        rfl
      | cons v tl' =>
        simp only [jsizeArrTail] at hsz
        have hr : arrTailRender ind ind0 (v :: tl') rest
            = ',' :: ('\n' :: (indentChars ind ++
                (renderVal ind v ++ arrTailRender ind ind0 tl' rest))) := by
          show ([',', '\n'] ++ ((indentChars ind ++ (renderVal ind v ++
              ((if tl'.isEmpty then [] else [',', '\n']) ++ renderItems ind tl')))
                ++ '\n' :: (indentChars ind0 ++ ']' :: rest))) = _
          simp [arrTailRender, itemSep, List.append_assoc]
        rw [hr, parseArrTail_comma]
        obtain ⟨c, cs, hrv, hws, hbr, _⟩ := renderVal_head v ind
        rw [parseValue_ws (b := renderVal ind v ++ arrTailRender ind ind0 tl' rest)
          (by rw [skipWs_newline, skipWs_indent, hrv, List.cons_append,
            skipWs_not_ws hws]) f,
          ihV v ind _ (by omega) (sepOk_arrTailRender ind ind0 tl' rest)]
        dsimp only
        rw [ihA tl' ind ind0 rest (by omega)]
        rfl
    · intro tl ind ind0 rest hsz
      cases tl with
      | nil =>
        have hr : objTailRender ind ind0 [] rest
            = '\n' :: (indentChars ind0 ++ ('}' :: rest)) := by
          simp [objTailRender, itemSep, show renderMembers ind [] = [] from rfl]
        rw [hr, parseObjTail_ws (b := '}' :: rest)
          (by rw [skipWs_newline, skipWs_indent, skipWs_not_ws (by decide)]) (f + 1),
          parseObjTail_rbrace]
        rfl
      | cons m tl' =>
        obtain ⟨k, v⟩ := m
        simp only [jsizeObjTail] at hsz
        have hr : objTailRender ind ind0 ((k, v) :: tl') rest
            = ',' :: ('\n' :: (indentChars ind ++
                ('"' :: (escapeStr k ++ ('"' :: (':' :: (' ' :: (renderVal ind v ++
                  objTailRender ind ind0 tl' rest)))))))) := by
          show ([',', '\n'] ++ ((indentChars ind ++
              (('"' :: (escapeStr k ++ ['"'])) ++ ':' :: ' ' :: (renderVal ind v ++
                ((if tl'.isEmpty then [] else [',', '\n']) ++ renderMembers ind tl'))))
                  ++ '\n' :: (indentChars ind0 ++ '}' :: rest))) = _
          simp [objTailRender, itemSep, List.append_assoc]
        rw [hr, parseObjTail_comma]
        rw [parseMember_ws (b := '"' :: (escapeStr k ++ ('"' :: (':' :: (' ' ::
            (renderVal ind v ++ objTailRender ind ind0 tl' rest))))))
          (by rw [skipWs_newline, skipWs_indent, skipWs_not_ws (by decide)]) f,
          ihM k v ind _ (by omega) (sepOk_objTailRender ind ind0 tl' rest)]
        dsimp only
        rw [ihO tl' ind ind0 rest (by omega)]
        rfl

theorem jsize_le_renderLen : ∀ n : Nat,
    (∀ v : JVal, jsizeVal v ≤ n → ∀ ind, jsizeVal v ≤ (renderVal ind v).length)
    ∧ (∀ tl : List JVal, jsizeArrTail tl ≤ n → ∀ ind, 1 ≤ ind →
        jsizeArrTail tl ≤ (renderItems ind tl).length + 1)
    ∧ (∀ tl : List (Chars × JVal), jsizeObjTail tl ≤ n → ∀ ind, 1 ≤ ind →
        jsizeObjTail tl ≤ (renderMembers ind tl).length + 1) := by
  intro n
  induction n with
  | zero =>
    exact ⟨fun v h => absurd h (by have := jsizeVal_pos v; omega),
      fun tl h => absurd h (by have := jsizeArrTail_pos tl; omega),
      fun tl h => absurd h (by have := jsizeObjTail_pos tl; omega)⟩
  | succ n ih =>
    obtain ⟨ihA, ihB, ihC⟩ := ih
    refine ⟨?_, ?_, ?_⟩
    · intro v hv ind
      cases v with
      | null =>
        have hlen : (renderVal ind JVal.null).length = 4 := rfl
        simp [jsizeVal, hlen]
      | bool b =>
        cases b with
        | true =>
          have hlen : (renderVal ind (JVal.bool true)).length = 4 := rfl
          simp [jsizeVal, hlen]
        | false =>
          have hlen : (renderVal ind (JVal.bool false)).length = 5 := rfl
          simp [jsizeVal, hlen]
      | int m =>
        have h1 : 1 ≤ (intToChars m).length := by
          rw [intToChars]
          by_cases hm : m < 0
          · rw [if_pos hm]; simp
          · rw [if_neg hm]; exact List.length_pos.2 natToChars_ne_nil
        have hlen : (renderVal ind (JVal.int m)).length = (intToChars m).length := rfl
        simp only [jsizeVal, hlen]
        omega
      | str s =>
        have hlen : (renderVal ind (JVal.str s)).length = (escapeStr s).length + 2 := by
          show ('"' :: (escapeStr s ++ ['"'])).length = _
          simp
        simp only [jsizeVal, hlen]
        omega
      | date y mo d =>
        have hlen : (renderVal ind (JVal.date y mo d)).length
            = (escapeStr (dateChars y mo d)).length + 2 := by
          show ('"' :: (escapeStr (dateChars y mo d) ++ ['"'])).length = _
          simp
        simp only [jsizeVal, hlen]
        omega
      | datetime y mo d h mi sec =>
        have hlen : (renderVal ind (JVal.datetime y mo d h mi sec)).length
            = (escapeStr (datetimeChars y mo d h mi sec)).length + 2 := by
          show ('"' :: (escapeStr (datetimeChars y mo d h mi sec) ++ ['"'])).length = _
          simp
        simp only [jsizeVal, hlen]
        omega
      | arr xs =>
        cases xs with
        | nil =>
          have hlen : (renderVal ind (JVal.arr [])).length = 2 := rfl
          simp [jsizeVal, hlen]
        | cons v tl =>
          have hp1 := jsizeVal_pos v
          have hp2 := jsizeArrTail_pos tl
          simp only [jsizeVal] at hv ⊢
          have hA := ihA v (by omega) (ind + 1)
          have hB := ihB tl (by omega) (ind + 1) (by omega)
          have hlen : (renderVal ind (JVal.arr (v :: tl))).length
              = 4 + 2 * ind + (renderItems (ind + 1) (v :: tl)).length := by
            show ('[' :: '\n' :: (renderItems (ind + 1) (v :: tl) ++ '\n' ::
              (indentChars ind ++ [']']))).length = _
            simp only [List.length_cons, List.length_append, List.length_nil, indentChars,
              List.length_replicate]
            omega
          have hlen2 : (renderItems (ind + 1) (v :: tl)).length
              = 2 * (ind + 1) + ((renderVal (ind + 1) v).length
                + (((if tl.isEmpty then ([] : Chars) else [',', '\n']).length)
                  + (renderItems (ind + 1) tl).length)) := by
            show (indentChars (ind + 1) ++ (renderVal (ind + 1) v ++
              ((if tl.isEmpty then ([] : Chars) else [',', '\n']) ++
                renderItems (ind + 1) tl))).length = _
            simp only [List.length_append, List.length_cons, List.length_nil, indentChars,
              List.length_replicate]
          rw [hlen, hlen2]
          omega
      | obj kvs =>
        cases kvs with
        | nil =>
          have hlen : (renderVal ind (JVal.obj [])).length = 2 := rfl
          simp [jsizeVal, hlen]
        | cons mem tl =>
          obtain ⟨k, v⟩ := mem
          have hp1 := jsizeVal_pos v
          have hp2 := jsizeObjTail_pos tl
          simp only [jsizeVal] at hv ⊢
          have hA := ihA v (by omega) (ind + 1)
          have hC := ihC tl (by omega) (ind + 1) (by omega)
          have hlen : (renderVal ind (JVal.obj ((k, v) :: tl))).length
              = 4 + 2 * ind + (renderMembers (ind + 1) ((k, v) :: tl)).length := by
            show ('{' :: '\n' :: (renderMembers (ind + 1) ((k, v) :: tl) ++ '\n' ::
              (indentChars ind ++ ['}']))).length = _
            simp only [List.length_cons, List.length_append, List.length_nil, indentChars,
              List.length_replicate]
            omega
          have hlen2 : (renderMembers (ind + 1) ((k, v) :: tl)).length
              = 2 * (ind + 1) + ((escapeStr k).length + (4
                + ((renderVal (ind + 1) v).length
                  + (((if tl.isEmpty then ([] : Chars) else [',', '\n']).length)
                    + (renderMembers (ind + 1) tl).length)))) := by
            show (indentChars (ind + 1) ++ (('"' :: (escapeStr k ++ ['"'])) ++
              ':' :: ' ' :: (renderVal (ind + 1) v ++
                ((if tl.isEmpty then ([] : Chars) else [',', '\n']) ++
                  renderMembers (ind + 1) tl)))).length = _
            simp only [List.length_append, List.length_cons, List.length_nil, indentChars,
              List.length_replicate]
            omega
          rw [hlen, hlen2]
          omega
    · intro tl htl ind hind
      cases tl with
      | nil =>
        have : jsizeArrTail ([] : List JVal) = 1 := rfl
        omega
      | cons v tl' =>
        have hp1 := jsizeVal_pos v
        have hp2 := jsizeArrTail_pos tl'
        simp only [jsizeArrTail] at htl ⊢
        have hA := ihA v (by omega) ind
        have hB := ihB tl' (by omega) ind hind
        have hlen2 : (renderItems ind (v :: tl')).length
            = 2 * ind + ((renderVal ind v).length
              + (((if tl'.isEmpty then ([] : Chars) else [',', '\n']).length)
                + (renderItems ind tl').length)) := by
          show (indentChars ind ++ (renderVal ind v ++
            ((if tl'.isEmpty then ([] : Chars) else [',', '\n']) ++
              renderItems ind tl'))).length = _
          simp only [List.length_append, List.length_cons, List.length_nil, indentChars,
              List.length_replicate]
        rw [hlen2]
        omega
    · intro tl htl ind hind
      cases tl with
      | nil =>
        have : jsizeObjTail ([] : List (Chars × JVal)) = 1 := rfl
        omega
      | cons mem tl' =>
        obtain ⟨k, v⟩ := mem
        have hp1 := jsizeVal_pos v
        have hp2 := jsizeObjTail_pos tl'
        simp only [jsizeObjTail] at htl ⊢
        have hA := ihA v (by omega) ind
        have hC := ihC tl' (by omega) ind hind
        have hlen2 : (renderMembers ind ((k, v) :: tl')).length
            = 2 * ind + ((escapeStr k).length + (4
              + ((renderVal ind v).length
                + (((if tl'.isEmpty then ([] : Chars) else [',', '\n']).length)
                  + (renderMembers ind tl').length)))) := by
          show (indentChars ind ++ (('"' :: (escapeStr k ++ ['"'])) ++
            ':' :: ' ' :: (renderVal ind v ++
              ((if tl'.isEmpty then ([] : Chars) else [',', '\n']) ++
                renderMembers ind tl')))).length = _
          simp only [List.length_append, List.length_cons, List.length_nil, indentChars,
            List.length_replicate]
          omega
        rw [hlen2]
        omega

theorem decode_encode (m : List (Chars × JVal)) :
    decode (encode m) = some (stripDates (canonVal (.obj m))) := by
  have hb := (jsize_le_renderLen (jsizeVal (canonVal (.obj m)))).1
    (canonVal (.obj m)) le_rfl 0
  have h := (parse_render_main ((renderVal 0 (canonVal (.obj m))).length + 1)).1
    (canonVal (.obj m)) 0 [] (by omega) rfl
  rw [List.append_nil] at h
  unfold decode encode
  rw [h]
  rfl

theorem stripPairs_eq_map (l : List (Chars × JVal)) :
    stripPairs l = l.map (fun p => (p.1, stripDates p.2)) := by
  induction l with
  | nil => rfl
  | cons p tl ih =>
    obtain ⟨k, v⟩ := p
    show (k, stripDates v) :: stripPairs tl = _
    rw [List.map_cons, ih]

theorem canonPairs_eq_map (l : List (Chars × JVal)) :
    canonPairs l = l.map (fun p => (p.1, canonVal p.2)) := by
  induction l with
  | nil => rfl
  | cons p tl ih =>
    obtain ⟨k, v⟩ := p
    show (k, canonVal v) :: canonPairs tl = _
    rw [List.map_cons, ih]

theorem lookup_cons_eq {k k0 : Chars} (v0 : JVal) (tl : List (Chars × JVal))
    (h : k = k0) : List.lookup k ((k0, v0) :: tl) = some v0 := by
  have hb : (k == k0) = true := beq_iff_eq.2 h
  simp [List.lookup, hb]

theorem lookup_cons_ne {k k0 : Chars} (v0 : JVal) (tl : List (Chars × JVal))
    (h : ¬ k = k0) : List.lookup k ((k0, v0) :: tl) = List.lookup k tl := by
  have hb : (k == k0) = false := beq_eq_false_iff_ne.2 h
  simp [List.lookup, hb]

theorem lookup_map_snd (f : JVal → JVal) (k : Chars) :
    ∀ l : List (Chars × JVal),
      List.lookup k (l.map (fun p => (p.1, f p.2))) = (List.lookup k l).map f := by
  intro l
  induction l with
  | nil => rfl
  | cons p tl ih =>
    obtain ⟨k0, v0⟩ := p
    by_cases hk : k = k0
    · rw [List.map_cons]
      dsimp only
      rw [lookup_cons_eq _ _ hk, lookup_cons_eq _ _ hk]
      rfl
    · rw [List.map_cons]
      dsimp only
      rw [lookup_cons_ne _ _ hk, lookup_cons_ne _ _ hk, ih]

theorem nodupKeys_tail {p : Chars × JVal} {tl : List (Chars × JVal)}
    (hn : nodupKeys (p :: tl)) : nodupKeys tl := by
  simp only [nodupKeys, List.map_cons, List.nodup_cons] at hn
  exact hn.2

theorem lookup_eq_of_perm {l1 l2 : List (Chars × JVal)} (hp : l1.Perm l2) :
    nodupKeys l1 → ∀ k : Chars, List.lookup k l1 = List.lookup k l2 := by
  induction hp with
  | nil => intro _ _; rfl
  | cons p _ ih =>
    intro hn k
    obtain ⟨k0, v0⟩ := p
    by_cases hk : k = k0
    · rw [lookup_cons_eq _ _ hk, lookup_cons_eq _ _ hk]
    · rw [lookup_cons_ne _ _ hk, lookup_cons_ne _ _ hk, ih (nodupKeys_tail hn) k]
  | swap x y l =>
    intro hn k
    obtain ⟨k1, v1⟩ := x
    obtain ⟨k2, v2⟩ := y
    have hne : k2 ≠ k1 := by
      simp only [nodupKeys, List.map_cons, List.nodup_cons, List.mem_cons] at hn
      exact fun e => hn.1 (Or.inl e)
    by_cases h1 : k = k2 <;> by_cases h2 : k = k1
    · exact absurd (h1.symm.trans h2) hne
    · rw [lookup_cons_eq _ _ h1, lookup_cons_ne _ _ h2, lookup_cons_eq _ _ h1]
    · rw [lookup_cons_ne _ _ h1, lookup_cons_eq _ _ h2, lookup_cons_eq _ _ h2]
    · rw [lookup_cons_ne _ _ h1, lookup_cons_ne _ _ h2, lookup_cons_ne _ _ h2,
        lookup_cons_ne _ _ h1]
  | trans h12 _ ih1 ih2 =>
    intro hn k
    have hn2 := (List.Perm.nodup_iff (h12.map Prod.fst)).1 hn
    exact (ih1 hn k).trans (ih2 hn2 k)

theorem perm_sortPairs (l : List (Chars × JVal)) : (sortPairs l).Perm l :=
  List.perm_insertionSort pairLe l

theorem nodupKeys_sortPairs {l : List (Chars × JVal)} (hn : nodupKeys l) :
    nodupKeys (sortPairs l) :=
  (List.Perm.nodup_iff ((perm_sortPairs l).map Prod.fst)).2 hn

theorem lookup_sortPairs {l : List (Chars × JVal)} (hn : nodupKeys l) (k : Chars) :
    List.lookup k (sortPairs l) = List.lookup k l :=
  lookup_eq_of_perm (perm_sortPairs l) (nodupKeys_sortPairs hn) k

theorem keys_canonPairs (l : List (Chars × JVal)) :
    (canonPairs l).map Prod.fst = l.map Prod.fst := by
  rw [canonPairs_eq_map, List.map_map]
  rfl

theorem keys_stripPairs (l : List (Chars × JVal)) :
    (stripPairs l).map Prod.fst = l.map Prod.fst := by
  rw [stripPairs_eq_map, List.map_map]
  rfl

theorem nodupKeys_canonPairs {l : List (Chars × JVal)} (hn : nodupKeys l) :
    nodupKeys (canonPairs l) := by
  rw [nodupKeys, keys_canonPairs]
  exact hn

theorem sorted_le_sortPairs (l : List (Chars × JVal)) :
    List.Sorted pairLe (sortPairs l) :=
  List.sorted_insertionSort pairLe l

theorem sorted_lt_sortPairs {l : List (Chars × JVal)} (hn : nodupKeys l) :
    List.Sorted pairLt (sortPairs l) := by
  have hs : List.Pairwise pairLe (sortPairs l) := sorted_le_sortPairs l
  have hnd : ((sortPairs l).map Prod.fst).Nodup := nodupKeys_sortPairs hn
  have hne : List.Pairwise (fun p q : Chars × JVal => p.1 ≠ q.1) (sortPairs l) :=
    List.pairwise_map.1 hnd
  exact (hs.and hne).imp fun h => lt_of_le_of_ne h.1 h.2

theorem lookup_decoded {m : List (Chars × JVal)} (hn : nodupKeys m) (k : Chars) :
    List.lookup k (stripPairs (sortPairs (canonPairs m)))
      = (List.lookup k m).map (fun v => stripDates (canonVal v)) := by
  rw [stripPairs_eq_map, lookup_map_snd, lookup_sortPairs (nodupKeys_canonPairs hn),
    canonPairs_eq_map, lookup_map_snd, Option.map_map]
  rfl

theorem canonVal_obj (m : List (Chars × JVal)) :
    canonVal (.obj m) = .obj (sortPairs (canonPairs m)) := rfl

theorem stripDates_obj (l : List (Chars × JVal)) :
    stripDates (.obj l) = .obj (stripPairs l) := rfl

theorem encode_perm_eq {m1 m2 : List (Chars × JVal)} (hp : m1.Perm m2)
    (hn : nodupKeys m1) : encode m1 = encode m2 := by
  have hn2 : nodupKeys m2 := (List.Perm.nodup_iff (hp.map Prod.fst)).1 hn
  have hcp : (canonPairs m1).Perm (canonPairs m2) := by
    rw [canonPairs_eq_map, canonPairs_eq_map]
    exact hp.map _
  have hperm : (sortPairs (canonPairs m1)).Perm (sortPairs (canonPairs m2)) :=
    ((perm_sortPairs _).trans hcp).trans (perm_sortPairs _).symm
  have heq : sortPairs (canonPairs m1) = sortPairs (canonPairs m2) :=
    List.eq_of_perm_of_sorted hperm
      (sorted_lt_sortPairs (nodupKeys_canonPairs hn))
      (sorted_lt_sortPairs (nodupKeys_canonPairs hn2))
  show renderVal 0 (canonVal (.obj m1)) = renderVal 0 (canonVal (.obj m2))
  rw [canonVal_obj, canonVal_obj, heq]

theorem keys_objInsert (k : Chars) (v : JVal) : ∀ (l : List (Chars × JVal)) (a : Chars),
    a ∈ (objInsert k v l).map Prod.fst ↔ (a = k ∨ a ∈ l.map Prod.fst) := by
  intro l
  induction l with
  | nil => intro a; simp [objInsert]
  | cons p tl ih =>
    intro a
    obtain ⟨k0, v0⟩ := p
    by_cases h : k0 = k
    · subst h
      simp [objInsert]
    · simp only [objInsert, if_neg h, List.map_cons, List.mem_cons, ih a]
      tauto

theorem nodupKeys_objInsert {l : List (Chars × JVal)} (hn : nodupKeys l) (k : Chars)
    (v : JVal) : nodupKeys (objInsert k v l) := by
  induction l with
  | nil => simp [objInsert, nodupKeys]
  | cons p tl ih =>
    obtain ⟨k0, v0⟩ := p
    have hn' : nodupKeys tl := nodupKeys_tail hn
    by_cases h : k0 = k
    · show nodupKeys (if k0 = k then (k0, v) :: tl else _)
      rw [if_pos h]
      simpa [nodupKeys] using hn
    · show nodupKeys (if k0 = k then _ else (k0, v0) :: objInsert k v tl)
      rw [if_neg h]
      simp only [nodupKeys, List.map_cons, List.nodup_cons] at hn ⊢
      refine ⟨fun hmem => ?_, ih hn'⟩
      rcases (keys_objInsert k v tl k0).1 hmem with he | hm
      · exact h he
      · exact hn.1 hm

theorem objRemove_sublist (k : Chars) : ∀ l : List (Chars × JVal),
    (objRemove k l).Sublist l := by
  intro l
  induction l with
  | nil => simp [objRemove]
  | cons p tl ih =>
    obtain ⟨k0, v0⟩ := p
    by_cases h : k0 = k
    · show List.Sublist (if k0 = k then tl else _) _
      rw [if_pos h]
      exact List.sublist_cons_self _ _
    · show List.Sublist (if k0 = k then _ else (k0, v0) :: objRemove k tl) _
      rw [if_neg h]
      exact ih.cons₂ _

theorem nodupKeys_objRemove {l : List (Chars × JVal)} (hn : nodupKeys l) (k : Chars) :
    nodupKeys (objRemove k l) :=
  List.Nodup.sublist ((objRemove_sublist k l).map Prod.fst) hn

theorem nodupKeys_foldl_objInsert (entries : List (Chars × JVal)) :
    ∀ acc, nodupKeys acc →
      nodupKeys (entries.foldl (fun acc p => objInsert p.1 p.2 acc) acc) := by
  induction entries with
  | nil => intro acc hn; exact hn
  | cons p tl ih =>
    intro acc hn
    exact ih (objInsert p.1 p.2 acc) (nodupKeys_objInsert hn p.1 p.2)

theorem keyMem_cons_false {k k0 : Chars} {v0 : JVal} {tl : List (Chars × JVal)}
    (h : keyMem k ((k0, v0) :: tl) = false) : ¬ k = k0 ∧ keyMem k tl = false := by
  by_cases hk : k = k0
  · rw [keyMem, lookup_cons_eq _ _ hk] at h
    simp at h
  · rw [keyMem, lookup_cons_ne _ _ hk] at h
    exact ⟨hk, h⟩

theorem objInsert_not_mem {k : Chars} {l : List (Chars × JVal)}
    (h : keyMem k l = false) (v : JVal) : objInsert k v l = l ++ [(k, v)] := by
  induction l with
  | nil => rfl
  | cons p tl ih =>
    obtain ⟨k0, v0⟩ := p
    obtain ⟨hk, htl⟩ := keyMem_cons_false h
    show (if k0 = k then _ else (k0, v0) :: objInsert k v tl) = _
    rw [if_neg (fun e => hk e.symm), ih htl, List.cons_append]

theorem keyMem_append_single (a k : Chars) (v : JVal) : ∀ acc : List (Chars × JVal),
    keyMem a (acc ++ [(k, v)]) = (keyMem a acc || a == k) := by
  intro acc
  induction acc with
  | nil =>
    by_cases h : a = k
    · rw [List.nil_append, keyMem, lookup_cons_eq _ _ h]
      simp [keyMem, beq_iff_eq.2 h]
    · rw [List.nil_append, keyMem, lookup_cons_ne _ _ h]
      simp [keyMem, List.lookup, beq_eq_false_iff_ne.2 h]
  | cons p tl ih =>
    obtain ⟨k0, v0⟩ := p
    by_cases h : a = k0
    · rw [List.cons_append, keyMem, lookup_cons_eq _ _ h, keyMem, lookup_cons_eq _ _ h]
      simp
    · rw [List.cons_append, keyMem, lookup_cons_ne _ _ h, keyMem, lookup_cons_ne _ _ h]
      exact ih

theorem foldl_objInsert_disjoint : ∀ (entries : List (Chars × JVal))
    (acc : List (Chars × JVal)), nodupKeys entries →
    (∀ a ∈ entries.map Prod.fst, keyMem a acc = false) →
    entries.foldl (fun acc p => objInsert p.1 p.2 acc) acc = acc ++ entries := by
  intro entries
  induction entries with
  | nil => intro acc _ _; simp
  | cons p tl ih =>
    intro acc hn hdis
    obtain ⟨k, v⟩ := p
    have hk : keyMem k acc = false := hdis k (by simp)
    have hstep : objInsert k v acc = acc ++ [(k, v)] := objInsert_not_mem hk v
    have hkn : k ∉ tl.map Prod.fst := by
      simp only [nodupKeys, List.map_cons, List.nodup_cons] at hn
      exact hn.1
    have hdis' : ∀ a ∈ tl.map Prod.fst, keyMem a (acc ++ [(k, v)]) = false := by
      intro a ha
      rw [keyMem_append_single]
      have h1 : keyMem a acc = false := hdis a (List.mem_cons_of_mem _ ha)
      have h2 : (a == k) = false := beq_eq_false_iff_ne.2 (fun e => hkn (e ▸ ha))
      rw [h1, h2]
      rfl
    show List.foldl (fun acc p => objInsert p.1 p.2 acc) (objInsert k v acc) tl = _
    rw [hstep, ih (acc ++ [(k, v)]) (nodupKeys_tail hn) hdis']
    simp

theorem foldl_objInsert_nil {entries : List (Chars × JVal)} (hn : nodupKeys entries) :
    entries.foldl (fun acc p => objInsert p.1 p.2 acc) [] = entries := by
  have h := foldl_objInsert_disjoint entries [] hn (fun a _ => rfl)
  simpa using h

theorem makedirs_none (hasDir : Bool) (oc : MkdirOutcome) : makedirs hasDir oc = none := by
  cases hasDir <;> cases oc <;> rfl

theorem save_ok (st : Store) (w : World) (mkOc : MkdirOutcome) :
    save st w mkOc .ok
      = ({ fs := { target := some (encode st.data), temps := w.fs.temps },
           history := w.history ++ [encode st.data] }, none) := by
  unfold save
  rw [makedirs_none]
  by_cases hsw : st.safelyWrite <;> simp [hsw, safely_write]

theorem save_fail (st : Store) (w : World) (mkOc : MkdirOutcome) (oc : WriteOutcome)
    (hsw : st.safelyWrite = true) (hoc : oc ≠ .ok) :
    (save st w mkOc oc).1.fs.target = w.fs.target
    ∧ (save st w mkOc oc).2 = some .writeFailed
    ∧ (save st w mkOc oc).1.history = w.history := by
  cases oc with
  | ok => exact absurd rfl hoc
  | failTempWrite =>
    unfold save
    rw [makedirs_none]
    simp [hsw, safely_write]
  | failTempClose =>
    unfold save
    rw [makedirs_none]
    simp [hsw, safely_write]
  | failRename =>
    unfold save
    rw [makedirs_none]
    simp [hsw, safely_write]

theorem autosaveHook_eq_true (st : Store) (w : World) (mkOc : MkdirOutcome)
    (oc : WriteOutcome) (h : st.autosave = true) :
    autosaveHook st w mkOc oc = (st, (save st w mkOc oc).1, (save st w mkOc oc).2) := by
  unfold autosaveHook
  rw [h]
  simp

theorem autosaveHook_eq_false (st : Store) (w : World) (mkOc : MkdirOutcome)
    (oc : WriteOutcome) (h : st.autosave = false) :
    autosaveHook st w mkOc oc = (st, w, none) := by
  unfold autosaveHook
  rw [h]
  simp

theorem post_save_ok (st' : Store) (w : World) (mkOc : MkdirOutcome)
    (hn' : nodupKeys st'.data) :
    (save st' w mkOc .ok).2 = none
    ∧ (save st' w mkOc .ok).1.fs.target = some (encode st'.data)
    ∧ decode (encode st'.data) = some (.obj (stripPairs (sortPairs (canonPairs st'.data))))
    ∧ ∀ key : Chars, List.lookup key (stripPairs (sortPairs (canonPairs st'.data)))
        = (List.lookup key st'.data).map (fun v => stripDates (canonVal v)) := by
  rw [save_ok]
  exact ⟨rfl, rfl, by rw [decode_encode, canonVal_obj, stripDates_obj],
    lookup_decoded hn'⟩

/-- Claim C1, counterexample: a save in safe-write mode whose temp-file write
step fails surfaces `WriteFailed` and leaves the target file unchanged — but
a temporary file remains in the directory (`temps = 1`), because
`safely_write` wraps only the `shutil.move` step in a cleanup handler
(`except IOError: os.unlink`), not the write or close of the temp file.  This
refutes "no temporary file left in the directory — for every failure point
(temp-file write, close, or rename)". -/
theorem safelyWriteOrphanCounterexample :
    safely_write { target := some ['x'], temps := 0 } ['y'] false .failTempWrite
      = ({ target := some ['x'], temps := 1 }, some .writeFailed) := rfl

/-- Claim C1, amended: in safe-write mode a save either fully replaces the
target with the new payload (success: target set, no temp left), or fails
surfacing `WriteFailed` with the target's previous content unchanged; on a
rename failure the temp file is deleted, while on a temp-file write or close
failure one temporary file is left behind in the directory. -/
theorem safelyWriteAmended (fs : FS) (data : Chars) (compress : Bool) :
    safely_write fs data compress .ok = ({ target := some data, temps := fs.temps }, none)
    ∧ safely_write fs data compress .failRename
        = ({ target := fs.target, temps := fs.temps }, some .writeFailed)
    ∧ safely_write fs data compress .failTempWrite
        = ({ target := fs.target, temps := fs.temps + 1 }, some .writeFailed)
    ∧ safely_write fs data compress .failTempClose
        = ({ target := fs.target, temps := fs.temps + 1 }, some .writeFailed) :=
  ⟨rfl, rfl, rfl, rfl⟩

/-- Claim C5, counterexample: `os.makedirs` fails for a cause other than
pre-existence, yet `makedirs` surfaces nothing — the code's
`except OSError: pass` swallows every directory-creation failure, so no
`DirectoryCreateFailed` error ever reaches the caller.  This refutes "every
directory-creation failure with any other cause is surfaced to the caller as
DirectoryCreateFailed, fatal to the save call". -/
theorem makedirsSwallowCounterexample :
    osMakedirs .failOther = some .directoryCreateFailed
    ∧ makedirs true .failOther = none :=
  ⟨rfl, rfl⟩

/-- Claim C5, amended: during save the parent directory is created
recursively, and every directory-creation failure — pre-existence and any
other cause alike — is suppressed (`except OSError: pass`); the save call
then proceeds, and with a healthy write it completes normally. -/
theorem makedirsAmended :
    (∀ (hasDir : Bool) (oc : MkdirOutcome), makedirs hasDir oc = none)
    ∧ ∀ (st : Store) (w : World) (mkOc : MkdirOutcome),
        (save st w mkOc .ok).2 = none
        ∧ (save st w mkOc .ok).1.fs.target = some (encode st.data) := by
  refine ⟨makedirs_none, fun st w mkOc => ?_⟩
  rw [save_ok]
  exact ⟨rfl, rfl⟩

/-- Claim C6: deleting an absent key fails with `KeyNotFound` and changes
nothing — neither the store nor the file (nor the temp-file population, nor
the write history), including when autosave is on: `dict.__delitem__` raises
before the autosave hook can run. -/
theorem deleteAbsentKey (st : Store) (w : World) (k : Chars) (mkOc : MkdirOutcome)
    (wOc : WriteOutcome) (h : keyMem k st.data = false) :
    delItem st w k mkOc wOc = (st, w, some .keyNotFound) := by
  unfold delItem
  rw [h]
  simp

/-- Witness for C6 at a concrete store with autosave on: key "b" is absent,
and the failed deletion returns the world untouched. -/
theorem deleteAbsentKeyWitness :
    delItem
      { data := [(['a'], .int 1)], filename := ['f'], autosave := true,
        compress := false, safelyWrite := true }
      { fs := { target := some ['x'], temps := 0 }, history := [] } ['b'] .ok .ok
      = ({ data := [(['a'], JVal.int 1)], filename := ['f'], autosave := true,
           compress := false, safelyWrite := true },
        { fs := { target := some ['x'], temps := 0 }, history := [] },
        some .keyNotFound) :=
  deleteAbsentKey _ _ _ _ _ (by rfl)

/-- Claim C7: an explicitly supplied `compress` value is taken as given;
when it is omitted (`None`), `compress` resolves to true exactly when the
filename ends in the `.gz` suffix (`filename.endswith('.gz')`). -/
theorem compressResolution (filename : Chars) :
    (∀ b : Bool, resolveCompress (some b) filename = b)
    ∧ (resolveCompress none filename = true ↔ ∃ pre, pre ++ gzSuffix = filename) := by
  constructor
  · intro b; rfl
  · show gzSuffix.isSuffixOf filename = true ↔ _
    rw [List.isSuffixOf_iff_suffix]
    exact Iff.rfl

/-- Claim C3: decoding an encoded mapping succeeds and yields the mapping
with every object sorted by key and every date/time value replaced by its
plain ISO-8601 string rendering — value-equality as mappings is witnessed by
the per-key lookup equation, whose right side is the original value
transformed only by `stripDates` (dates to strings) and `canonVal` (nested
key reordering, invisible to lookups).  No date auto-detection happens on
decode: the date comes back as `JVal.str`. -/
theorem serializerRoundTrip (m : List (Chars × JVal)) (hm : nodupKeys m) :
    decode (encode m) = some (.obj (stripPairs (sortPairs (canonPairs m))))
    ∧ ∀ k : Chars, List.lookup k (stripPairs (sortPairs (canonPairs m)))
        = (List.lookup k m).map (fun v => stripDates (canonVal v)) := by
  refine ⟨?_, lookup_decoded hm⟩
  rw [decode_encode, canonVal_obj, stripDates_obj]

/-- Witness for C3 at the module docstring's own example mapping: the file
text decodes back to the mapping with the datetime as the plain string
"2013-01-27T21:14:00Z". -/
theorem serializerRoundTripWitness :
    nodupKeys [("b".toList, JVal.int 2),
      ("created".toList, JVal.datetime 2013 1 27 21 14 0), ("a".toList, JVal.int 1)]
    ∧ decode (encode [("b".toList, JVal.int 2),
        ("created".toList, JVal.datetime 2013 1 27 21 14 0), ("a".toList, JVal.int 1)])
      = some (.obj [("a".toList, JVal.int 1), ("b".toList, JVal.int 2),
          ("created".toList, JVal.str "2013-01-27T21:14:00Z".toList)]) :=
  ⟨by decide,
    ((serializerRoundTrip [("b".toList, JVal.int 2),
      ("created".toList, JVal.datetime 2013 1 27 21 14 0), ("a".toList, JVal.int 1)]
      (by decide)).1).trans (by rfl)⟩

/-- Claim C4: encoding is deterministic — it is a pure function, two mappings
equal up to insertion order (a permutation, with duplicate-free keys) encode
to byte-identical output, the member list actually rendered is sorted
strictly ascending by key, and `encode` renders exactly that sorted member
list. -/
theorem encodeDeterministic (m1 m2 : List (Chars × JVal)) (hp : m1.Perm m2)
    (hn : nodupKeys m1) :
    encode m1 = encode m1
    ∧ encode m1 = encode m2
    ∧ List.Sorted pairLt (sortPairs (canonPairs m1))
    ∧ encode m1 = renderVal 0 (.obj (sortPairs (canonPairs m1))) :=
  ⟨rfl, encode_perm_eq hp hn, sorted_lt_sortPairs (nodupKeys_canonPairs hn), rfl⟩

/-- Witness for C4: the two insertion orders of {"a": 1, "b": 2} encode to
the same bytes. -/
theorem encodeDeterministicWitness :
    List.Perm [("b".toList, JVal.int 2), ("a".toList, JVal.int 1)]
      [("a".toList, JVal.int 1), ("b".toList, JVal.int 2)]
    ∧ nodupKeys [("b".toList, JVal.int 2), ("a".toList, JVal.int 1)]
    ∧ encode [("b".toList, JVal.int 2), ("a".toList, JVal.int 1)]
      = encode [("a".toList, JVal.int 1), ("b".toList, JVal.int 2)] :=
  ⟨List.Perm.swap ("a".toList, JVal.int 1) ("b".toList, JVal.int 2) [],
    by decide,
    (encodeDeterministic [("b".toList, JVal.int 2), ("a".toList, JVal.int 1)]
      [("a".toList, JVal.int 1), ("b".toList, JVal.int 2)]
      (List.Perm.swap ("a".toList, JVal.int 1) ("b".toList, JVal.int 2) [])
      (by decide)).2.1⟩

/-- Claim C2, counterexample: on a store with autosave on, setting key "d"
to a datetime value succeeds and rewrites the file, but decoding the file
yields the mapping with the plain string "2013-01-27T21:14:00Z", which is
not equal to the in-memory mapping holding the datetime value — so "decoding
the file yields a mapping equal to the Store's in-memory mapping" fails
whenever a date/time value is present. -/
theorem autosaveDatetimeCounterexample :
    (setItem
        { data := [], filename := ['f'], autosave := true, compress := false,
          safelyWrite := true }
        { fs := { target := none, temps := 0 }, history := [] }
        "d".toList (.datetime 2013 1 27 21 14 0) .ok .ok).2.1.fs.target
      = some (encode [("d".toList, .datetime 2013 1 27 21 14 0)])
    ∧ decode (encode [("d".toList, .datetime 2013 1 27 21 14 0)])
      = some (.obj [("d".toList, .str "2013-01-27T21:14:00Z".toList)])
    ∧ JVal.obj [("d".toList, JVal.str "2013-01-27T21:14:00Z".toList)]
      ≠ JVal.obj [("d".toList, JVal.datetime 2013 1 27 21 14 0)] := by
  refine ⟨rfl, rfl, ?_⟩
  intro h
  simp at h

/-- Claim C2, amended: after each of the four mutating operations on a store
with autosave on and a healthy write, the call reports no error, the file
holds exactly the encoding of the new in-memory mapping, and decoding the
file yields that mapping with objects key-sorted and date/time values as
their plain string renderings — per-key lookups agree modulo
`stripDates ∘ canonVal` (for mappings without date/time values this is plain
equality of looked-up values). -/
theorem autosaveConsistency (st : Store) (w : World) (mkOc : MkdirOutcome)
    (hauto : st.autosave = true) (hn : nodupKeys st.data) :
    (∀ (k : Chars) (v : JVal),
      (setItem st w k v mkOc .ok).2.2 = none
      ∧ (setItem st w k v mkOc .ok).1.data = objInsert k v st.data
      ∧ (setItem st w k v mkOc .ok).2.1.fs.target = some (encode (objInsert k v st.data))
      ∧ decode (encode (objInsert k v st.data))
          = some (.obj (stripPairs (sortPairs (canonPairs (objInsert k v st.data)))))
      ∧ ∀ key : Chars,
          List.lookup key (stripPairs (sortPairs (canonPairs (objInsert k v st.data))))
            = (List.lookup key (objInsert k v st.data)).map
                (fun u => stripDates (canonVal u)))
    ∧ (∀ k : Chars, keyMem k st.data = true →
      (delItem st w k mkOc .ok).2.2 = none
      ∧ (delItem st w k mkOc .ok).1.data = objRemove k st.data
      ∧ (delItem st w k mkOc .ok).2.1.fs.target = some (encode (objRemove k st.data))
      ∧ decode (encode (objRemove k st.data))
          = some (.obj (stripPairs (sortPairs (canonPairs (objRemove k st.data)))))
      ∧ ∀ key : Chars,
          List.lookup key (stripPairs (sortPairs (canonPairs (objRemove k st.data))))
            = (List.lookup key (objRemove k st.data)).map
                (fun u => stripDates (canonVal u)))
    ∧ ((clearStore st w mkOc .ok).2.2 = none
      ∧ (clearStore st w mkOc .ok).1.data = []
      ∧ (clearStore st w mkOc .ok).2.1.fs.target = some (encode [])
      ∧ decode (encode []) = some (.obj []))
    ∧ (∀ entries : List (Chars × JVal),
      (updateStore st w entries mkOc .ok).2.2 = none
      ∧ (updateStore st w entries mkOc .ok).1.data
          = entries.foldl (fun acc p => objInsert p.1 p.2 acc) st.data
      ∧ (updateStore st w entries mkOc .ok).2.1.fs.target
          = some (encode (entries.foldl (fun acc p => objInsert p.1 p.2 acc) st.data))
      ∧ decode (encode (entries.foldl (fun acc p => objInsert p.1 p.2 acc) st.data))
          = some (.obj (stripPairs (sortPairs (canonPairs
              (entries.foldl (fun acc p => objInsert p.1 p.2 acc) st.data)))))
      ∧ ∀ key : Chars,
          List.lookup key (stripPairs (sortPairs (canonPairs
              (entries.foldl (fun acc p => objInsert p.1 p.2 acc) st.data))))
            = (List.lookup key (entries.foldl (fun acc p => objInsert p.1 p.2 acc) st.data)).map
                (fun u => stripDates (canonVal u))) := by
  refine ⟨?_, ?_, ?_, ?_⟩
  · intro k v
    unfold setItem
    rw [autosaveHook_eq_true { st with data := objInsert k v st.data } w mkOc .ok hauto,
      save_ok]
    exact ⟨rfl, rfl, rfl,
      by rw [decode_encode, canonVal_obj, stripDates_obj],
      lookup_decoded (nodupKeys_objInsert hn k v)⟩
  · intro k hk
    unfold delItem
    rw [hk]
    simp only [reduceIte]
    rw [autosaveHook_eq_true { st with data := objRemove k st.data } w mkOc .ok hauto,
      save_ok]
    exact ⟨rfl, rfl, rfl,
      by rw [decode_encode, canonVal_obj, stripDates_obj],
      lookup_decoded (nodupKeys_objRemove hn k)⟩
  · unfold clearStore
    rw [autosaveHook_eq_true { st with data := [] } w mkOc .ok hauto, save_ok]
    exact ⟨rfl, rfl, rfl, by rw [decode_encode]; rfl⟩
  · intro entries
    unfold updateStore
    rw [autosaveHook_eq_true
      { st with data := entries.foldl (fun acc p => objInsert p.1 p.2 acc) st.data }
      w mkOc .ok hauto, save_ok]
    exact ⟨rfl, rfl, rfl,
      by rw [decode_encode, canonVal_obj, stripDates_obj],
      lookup_decoded (nodupKeys_foldl_objInsert entries st.data hn)⟩

/-- Witness for C2 at a concrete autosave store: after setting "b" to 2 the
file holds the encoding of the new mapping and no error is reported. -/
theorem autosaveConsistencyWitness :
    (setItem
        { data := [(['a'], JVal.int 1)], filename := ['f'], autosave := true,
          compress := false, safelyWrite := true }
        { fs := { target := some (encode [(['a'], JVal.int 1)]), temps := 0 },
          history := [] } ['b'] (JVal.int 2) .ok .ok).2.2 = none
    ∧ (setItem
        { data := [(['a'], JVal.int 1)], filename := ['f'], autosave := true,
          compress := false, safelyWrite := true }
        { fs := { target := some (encode [(['a'], JVal.int 1)]), temps := 0 },
          history := [] } ['b'] (JVal.int 2) .ok .ok).2.1.fs.target
      = some (encode (objInsert ['b'] (JVal.int 2) [(['a'], JVal.int 1)])) :=
  ⟨((autosaveConsistency
      { data := [(['a'], JVal.int 1)], filename := ['f'], autosave := true,
        compress := false, safelyWrite := true }
      { fs := { target := some (encode [(['a'], JVal.int 1)]), temps := 0 },
        history := [] } .ok rfl (by decide)).1 ['b'] (JVal.int 2)).1,
    ((autosaveConsistency
      { data := [(['a'], JVal.int 1)], filename := ['f'], autosave := true,
        compress := false, safelyWrite := true }
      { fs := { target := some (encode [(['a'], JVal.int 1)]), temps := 0 },
        history := [] } .ok rfl (by decide)).1 ['b'] (JVal.int 2)).2.2.1⟩

theorem clearStore_eq (st : Store) (w : World) (mkOc : MkdirOutcome) (oc : WriteOutcome) :
    clearStore st w mkOc oc = autosaveHook { st with data := [] } w mkOc oc := rfl

theorem updateStore_eq (st : Store) (w : World) (entries : List (Chars × JVal))
    (mkOc : MkdirOutcome) (oc : WriteOutcome) :
    updateStore st w entries mkOc oc
      = autosaveHook
          { st with data := entries.foldl (fun acc p => objInsert p.1 p.2 acc) st.data }
          w mkOc oc := rfl

theorem load_obj (st : Store) (w : World) (mkOc : MkdirOutcome) (bytes : Chars)
    (kvs : List (Chars × JVal)) (htgt : w.fs.target = some bytes)
    (hdec : decode bytes = some (.obj kvs)) :
    load st w mkOc .ok
      = (match clearStore st w mkOc .ok with
         | (st1, w1, some e) => (st1, w1, some e)
         | (st1, w1, none) => updateStore st1 w1 kvs mkOc .ok) := by
  unfold load
  rw [htgt]
  dsimp only
  rw [hdec]

/-- Claim C8: construction resolves the configuration and then: with no file
at the path, the mapping starts empty and nothing is written (world
untouched); with a file holding invalid JSON, `MalformedDocument` is raised
at construction time before any mutation, the world untouched; with a file
holding a JSON object (and a healthy write, for when autosave is on), the
decoded content replaces the initial empty mapping and no error is
reported. -/
theorem dictInitSpec (filename : Chars) (autosave : Bool) (ca : Option Bool) (sw : Bool)
    (w : World) (mkOc : MkdirOutcome) :
    (w.fs.target = none →
      dictInit filename autosave ca sw w mkOc .ok
        = ({ data := [], filename := filename, autosave := autosave,
             compress := resolveCompress ca filename, safelyWrite := sw }, w, none))
    ∧ (∀ bytes : Chars, w.fs.target = some bytes → decode bytes = none →
      dictInit filename autosave ca sw w mkOc .ok
        = ({ data := [], filename := filename, autosave := autosave,
             compress := resolveCompress ca filename, safelyWrite := sw }, w,
           some .malformedDocument))
    ∧ (∀ (bytes : Chars) (kvs : List (Chars × JVal)), w.fs.target = some bytes →
      decode bytes = some (.obj kvs) → nodupKeys kvs →
      (dictInit filename autosave ca sw w mkOc .ok).1.data = kvs
      ∧ (dictInit filename autosave ca sw w mkOc .ok).2.2 = none) := by
  refine ⟨?_, ?_, ?_⟩
  · intro htgt
    unfold dictInit
    rw [htgt]
  · intro bytes htgt hdec
    unfold dictInit
    rw [htgt]
    dsimp only
    unfold load
    rw [htgt]
    dsimp only
    rw [hdec]
  · intro bytes kvs htgt hdec hn
    unfold dictInit
    rw [htgt]
    dsimp only
    rw [load_obj _ _ _ bytes kvs htgt hdec, clearStore_eq]
    cases autosave with
    | true =>
      rw [autosaveHook_eq_true _ _ _ _ rfl, save_ok]
      dsimp only
      rw [updateStore_eq, autosaveHook_eq_true _ _ _ _ rfl, save_ok]
      dsimp only
      exact ⟨foldl_objInsert_nil hn, rfl⟩
    | false =>
      rw [autosaveHook_eq_false _ _ _ _ rfl]
      dsimp only
      rw [updateStore_eq, autosaveHook_eq_false _ _ _ _ rfl]
      dsimp only
      exact ⟨foldl_objInsert_nil hn, rfl⟩

/-- Witness for C8: all three construction behaviours at concrete worlds —
no file, a malformed file, and a valid one-key file. -/
theorem dictInitSpecWitness :
    dictInit ['f'] false none true { fs := { target := none, temps := 0 }, history := [] }
        .ok .ok
      = ({ data := [], filename := ['f'], autosave := false,
           compress := resolveCompress none ['f'], safelyWrite := true },
         { fs := { target := none, temps := 0 }, history := [] }, none)
    ∧ dictInit ['f'] false none true
        { fs := { target := some "nope".toList, temps := 0 }, history := [] } .ok .ok
      = ({ data := [], filename := ['f'], autosave := false,
           compress := resolveCompress none ['f'], safelyWrite := true },
         { fs := { target := some "nope".toList, temps := 0 }, history := [] },
         some .malformedDocument)
    ∧ (dictInit ['f'] false none true
        { fs := { target := some "\x7b\n  \"a\": 1\n\x7d".toList, temps := 0 }, history := [] }
        .ok .ok).1.data = [("a".toList, JVal.int 1)] :=
  ⟨(dictInitSpec ['f'] false none true
      { fs := { target := none, temps := 0 }, history := [] } .ok).1 rfl,
    (dictInitSpec ['f'] false none true
      { fs := { target := some "nope".toList, temps := 0 }, history := [] } .ok).2.1
      "nope".toList rfl (by rfl),
    ((dictInitSpec ['f'] false none true
      { fs := { target := some "\x7b\n  \"a\": 1\n\x7d".toList, temps := 0 }, history := [] }
      .ok).2.2 "\x7b\n  \"a\": 1\n\x7d".toList [("a".toList, JVal.int 1)] rfl (by rfl)
      (by decide)).1⟩

theorem autosaveHook_with_data (st : Store) (d : List (Chars × JVal)) (w : World)
    (mkOc : MkdirOutcome) (oc : WriteOutcome) (h : st.autosave = true) :
    autosaveHook { st with data := d } w mkOc oc
      = ({ st with data := d }, (save { st with data := d } w mkOc oc).1,
         (save { st with data := d } w mkOc oc).2) :=
  autosaveHook_eq_true _ _ _ _ h

/-- Claim C9 (implicit): `load()` on a store with autosave on rewrites the
target file twice as a side effect — `load` is `clear()` then
`update(data)`, and each triggers a full save: the write history gains
exactly the empty document `{}` and then the loaded content. -/
theorem loadAutosaveRewrites (st : Store) (w : World) (mkOc : MkdirOutcome)
    (bytes : Chars) (kvs : List (Chars × JVal)) (hauto : st.autosave = true)
    (htgt : w.fs.target = some bytes) (hdec : decode bytes = some (.obj kvs)) :
    (load st w mkOc .ok).2.2 = none
    ∧ (load st w mkOc .ok).1.data = kvs.foldl (fun acc p => objInsert p.1 p.2 acc) []
    ∧ (load st w mkOc .ok).2.1.history
        = w.history ++ [encode [],
            encode (kvs.foldl (fun acc p => objInsert p.1 p.2 acc) [])] := by
  rw [load_obj _ _ _ bytes kvs htgt hdec, clearStore_eq,
    autosaveHook_with_data st [] w mkOc .ok hauto, save_ok]
  dsimp only
  rw [updateStore_eq]
  rw [autosaveHook_with_data]
  rotate_left
  · exact hauto
  rw [save_ok]
  refine ⟨rfl, rfl, ?_⟩
  dsimp only
  rw [List.append_assoc]
  rfl

/-- Witness for C9: loading the one-key file with autosave on reports no
error and appends the empty document and then the loaded document to the
write history. -/
theorem loadAutosaveRewritesWitness :
    (load
        { data := [], filename := ['f'], autosave := true, compress := false,
          safelyWrite := true }
        { fs := { target := some "\x7b\n  \"a\": 1\n\x7d".toList, temps := 0 }, history := [] }
        .ok .ok).2.1.history
      = [] ++ [encode [],
          encode ([("a".toList, JVal.int 1)].foldl (fun acc p => objInsert p.1 p.2 acc) [])] :=
  (loadAutosaveRewrites
    { data := [], filename := ['f'], autosave := true, compress := false,
      safelyWrite := true }
    { fs := { target := some "\x7b\n  \"a\": 1\n\x7d".toList, temps := 0 }, history := [] }
    .ok "\x7b\n  \"a\": 1\n\x7d".toList [("a".toList, JVal.int 1)] rfl rfl (by rfl)).2.2

/-- Claim C10 (implicit): a mutation is applied to the in-memory mapping
before the autosave save runs, and a failing autosave does not roll it back:
after a set whose (safe-mode) save fails at any injected failure point, the
call surfaces `WriteFailed`, the in-memory mapping holds the new binding,
and the target file still holds the old content (the write history is also
unchanged). -/
theorem mutationSurvivesFailedAutosave (st : Store) (w : World) (k : Chars) (v : JVal)
    (mkOc : MkdirOutcome) (oc : WriteOutcome) (hauto : st.autosave = true)
    (hsw : st.safelyWrite = true) (hoc : oc ≠ .ok) :
    (setItem st w k v mkOc oc).2.2 = some .writeFailed
    ∧ (setItem st w k v mkOc oc).1.data = objInsert k v st.data
    ∧ (setItem st w k v mkOc oc).2.1.fs.target = w.fs.target
    ∧ (setItem st w k v mkOc oc).2.1.history = w.history := by
  unfold setItem
  rw [autosaveHook_eq_true { st with data := objInsert k v st.data } w mkOc oc hauto]
  obtain ⟨h1, h2, h3⟩ :=
    save_fail { st with data := objInsert k v st.data } w mkOc oc hsw hoc
  exact ⟨h2, rfl, h1, h3⟩

/-- Witness for C10: a concrete set with a failing temp-file write leaves the
new binding in memory and the old content on disk. -/
theorem mutationSurvivesFailedAutosaveWitness :
    (setItem
        { data := [], filename := ['f'], autosave := true, compress := false,
          safelyWrite := true }
        { fs := { target := some ['x'], temps := 0 }, history := [] }
        ['a'] (JVal.int 1) .ok .failTempWrite).1.data = objInsert ['a'] (JVal.int 1) []
    ∧ (setItem
        { data := [], filename := ['f'], autosave := true, compress := false,
          safelyWrite := true }
        { fs := { target := some ['x'], temps := 0 }, history := [] }
        ['a'] (JVal.int 1) .ok .failTempWrite).2.1.fs.target = some ['x'] :=
  ⟨(mutationSurvivesFailedAutosave
      { data := [], filename := ['f'], autosave := true, compress := false,
        safelyWrite := true }
      { fs := { target := some ['x'], temps := 0 }, history := [] }
      ['a'] (JVal.int 1) .ok .failTempWrite rfl rfl (by decide)).2.1,
    (mutationSurvivesFailedAutosave
      { data := [], filename := ['f'], autosave := true, compress := false,
        safelyWrite := true }
      { fs := { target := some ['x'], temps := 0 }, history := [] }
      ['a'] (JVal.int 1) .ok .failTempWrite rfl rfl (by decide)).2.2.1⟩
